import Mathlib

/-!
# WMIT: PIE capability sets, animation objects and the model load/save entry points

A shallow embedding of `src/formats/Pie.h` and of the model load/save functions of
`src/ui/MainWindow.cpp`, followed by the verified properties.
-/

namespace WMIT

/-! ## `std::bitset<N>` (the C++ standard library container used by `EnumClassBitset`) -/

/-- The two exceptions `std::bitset` can throw. -/
inductive StdError where
  | invalid_argument
  | out_of_range
  deriving DecidableEq, Repr

instance {ε α : Type} [DecidableEq ε] [DecidableEq α] : DecidableEq (Except ε α)
  | .ok a, .ok b => if h : a = b then isTrue (by rw [h]) else isFalse (fun e => h (Except.ok.inj e))
  | .error a, .error b =>
    if h : a = b then isTrue (by rw [h]) else isFalse (fun e => h (Except.error.inj e))
  | .ok _, .error _ => isFalse (fun e => Except.noConfusion e)
  | .error _, .ok _ => isFalse (fun e => Except.noConfusion e)

/-- A `std::bitset<N>`: `N` bits, bit `i` stored at position `i`. -/
structure StdBitset (N : Nat) where
  bit : Fin N → Bool

namespace StdBitset

variable {N : Nat}

/-- Value-initialised `bitset()`: every bit is zero. -/
def zero : StdBitset N := ⟨fun _ => false⟩

instance : Inhabited (StdBitset N) := ⟨zero⟩

/-- Unchecked write of one bit (positions outside `0..N-1` are never passed). -/
def uncheckedSet (b : StdBitset N) (pos : Nat) (val : Bool) : StdBitset N :=
  ⟨fun j => if j.val = pos then val else b.bit j⟩

/-- The copy loop of `bitset(const std::string&)`: for `i = 0 .. M-1` the character at
position `M - 1 - i` decides bit `i` (zero character: bit cleared, otherwise set). -/
def copyFrom (str : List Char) (M : Nat) : Nat → StdBitset N → StdBitset N
  | 0, b => b
  | i + 1, b =>
    let b1 := copyFrom str M i b
    let c := str.getD (M - 1 - i) '0'
    if c = '0' then b1.uncheckedSet i false else b1.uncheckedSet i true

/-- Constructor `bitset(const std::string& str)` with the default arguments
`pos = 0`, `n = npos`, `zero = '0'`, `one = '1'`, as libstdc++ implements it: the first
`M = min N str.size()` characters are examined; `invalid_argument` is thrown when one of
them is neither `'0'` nor `'1'`; otherwise they initialise bits `0..M-1` in reverse and
the remaining bits are zero. Characters behind the first `M` are not looked at. -/
def ofString (N : Nat) (str : String) : Except StdError (StdBitset N) :=
  let cs := str.toList
  if (cs.take (min N cs.length)).all (fun c => c = '0' || c = '1') then
    .ok (copyFrom cs (min N cs.length) (min N cs.length) zero)
  else
    .error .invalid_argument

/-- Member `bitset::test(pos)`: throws `out_of_range` when `pos` is not a valid position. -/
def test (b : StdBitset N) (pos : Nat) : Except StdError Bool :=
  if h : pos < N then .ok (b.bit ⟨pos, h⟩) else .error .out_of_range

/-- Member `bitset::set(pos, val)`. -/
def set (b : StdBitset N) (pos : Nat) (val : Bool) : Except StdError (StdBitset N) :=
  if pos < N then .ok (b.uncheckedSet pos val) else .error .out_of_range

/-- Member `bitset::reset()`: clears every bit. -/
def resetAll (_b : StdBitset N) : StdBitset N := zero

/-- Member `bitset::reset(pos)`. -/
def reset (b : StdBitset N) (pos : Nat) : Except StdError (StdBitset N) :=
  if pos < N then .ok (b.uncheckedSet pos false) else .error .out_of_range

/-- Member `bitset::flip(pos)`. -/
def flip (b : StdBitset N) (pos : Nat) : Except StdError (StdBitset N) :=
  if h : pos < N then .ok (b.uncheckedSet pos (!b.bit ⟨pos, h⟩)) else .error .out_of_range

/-- Member `bitset::size()`. -/
def size (_b : StdBitset N) : Nat := N

end StdBitset

/-! ## `PIE_OPT_DIRECTIVES`, `EnumTraits`, `EnumClassBitset` (Pie.h) -/

/-- The enumeration `enum class PIE_OPT_DIRECTIVES`, in declaration order. -/
inductive PIE_OPT_DIRECTIVES where
  | podNORMALMAP
  | podSPECULARMAP
  | podEVENT
  | podMATERIALS
  | podSHADERS
  | podNORMALS
  | podCONNECTORS
  | podANIMOBJECT
  | pod_MAXVAL
  deriving DecidableEq, Repr

open PIE_OPT_DIRECTIVES

/-- Private helper `EnumClassBitset::get_value`: the underlying integer of an enumerator
(enumerators without initialisers count up from zero). -/
def get_value : PIE_OPT_DIRECTIVES → Nat
  | podNORMALMAP => 0
  | podSPECULARMAP => 1
  | podEVENT => 2
  | podMATERIALS => 3
  | podSHADERS => 4
  | podNORMALS => 5
  | podCONNECTORS => 6
  | podANIMOBJECT => 7
  | pod_MAXVAL => 8

/-- The member `EnumTraits<PIE_OPT_DIRECTIVES>::max`. -/
def EnumTraits.max : PIE_OPT_DIRECTIVES := pod_MAXVAL

/-- The class `EnumClassBitset<PIE_OPT_DIRECTIVES>`: its single member `c` is a
`std::bitset` of `static_cast<underlying>(EnumTraits::max)` bits. -/
structure EnumClassBitset where
  c : StdBitset (get_value EnumTraits.max)

/-- The typedef `PieCaps`. -/
abbrev PieCaps := EnumClassBitset

namespace EnumClassBitset

/-- Default constructor `EnumClassBitset() = default`. -/
def empty : EnumClassBitset := ⟨StdBitset.zero⟩

instance : Inhabited EnumClassBitset := ⟨empty⟩

/-- Constructor `EnumClassBitset(const std::string& bit_string) : c(bit_string)`. -/
def ofString (bit_string : String) : Except StdError EnumClassBitset :=
  match StdBitset.ofString (get_value EnumTraits.max) bit_string with
  | .ok b => .ok ⟨b⟩
  | .error e => .error e

/-- Member `test(T pos)`. -/
def test (s : EnumClassBitset) (pos : PIE_OPT_DIRECTIVES) : Except StdError Bool :=
  s.c.test (get_value pos)

/-- Member `set(T pos, bool val = true)`. -/
def set (s : EnumClassBitset) (pos : PIE_OPT_DIRECTIVES) (val : Bool := true) :
    Except StdError EnumClassBitset :=
  match s.c.set (get_value pos) val with
  | .ok b => .ok ⟨b⟩
  | .error e => .error e

/-- Member `reset()`. -/
def resetAll (s : EnumClassBitset) : EnumClassBitset := ⟨s.c.resetAll⟩

/-- Member `reset(T pos)`. -/
def reset (s : EnumClassBitset) (pos : PIE_OPT_DIRECTIVES) : Except StdError EnumClassBitset :=
  match s.c.reset (get_value pos) with
  | .ok b => .ok ⟨b⟩
  | .error e => .error e

/-- Member `flip(T pos)`. -/
def flip (s : EnumClassBitset) (pos : PIE_OPT_DIRECTIVES) : Except StdError EnumClassBitset :=
  match s.c.flip (get_value pos) with
  | .ok b => .ok ⟨b⟩
  | .error e => .error e

/-- Member `size()`. -/
def size (s : EnumClassBitset) : Nat := s.c.size

end EnumClassBitset

/-- The constant `PIE2_CAPS("11010111")`. -/
def PIE2_CAPS : Except StdError PieCaps := EnumClassBitset.ofString "11010111"

/-- The constant `PIE3_CAPS("11010111")`. -/
def PIE3_CAPS : Except StdError PieCaps := EnumClassBitset.ofString "11010111"

/-! ## Animation objects (Pie.h) -/

/-- The template `Vertex<T>` of `VectorTypes.h`: three coordinates. -/
structure Vertex (T : Type) where
  x : T
  y : T
  z : T

/-- The class `ApieAnimFrame`; `F` stands for the C++ type `float`. -/
structure ApieAnimFrame (F : Type) where
  num : Int
  pos : Vertex Int
  rot : Vertex Int
  scale : Vertex F

/-- The class `ApieAnimObject`. -/
structure ApieAnimObject (F : Type) where
  time : Int
  cycles : Int
  numframes : Int
  frames : List (ApieAnimFrame F)

namespace ApieAnimObject

variable {F : Type}

/-- Member `isValid() const {return !frames.empty();}`. -/
def isValid (o : ApieAnimObject F) : Bool := !o.frames.isEmpty

/-- Member `clear() {frames.clear();}`. -/
def clear (o : ApieAnimObject F) : ApieAnimObject F := { o with frames := [] }

end ApieAnimObject

/-! ## Model load and save (MainWindow.cpp) -/

/-- The enumeration `wmit_filetype_t`; it is declared outside these sources, and its
enumerators are the four that `MainWindow.cpp` uses. -/
inductive wmit_filetype_t where
  | WMIT_FT_PIE
  | WMIT_FT_PIE2
  | WMIT_FT_WZM
  | WMIT_FT_OBJ
  deriving DecidableEq, Repr

open wmit_filetype_t

/-- A `QString`, as its sequence of characters. -/
abbrev QString := List Char

namespace QString

/-- Scan of `lastIndexOf`: `i` is the index of the head of the remaining text and `acc`
the last match seen so far. -/
def lastIndexOfFrom (ch : Char) : List Char → Nat → Int → Int
  | [], _, acc => acc
  | c :: cs, i, acc => lastIndexOfFrom ch cs (i + 1) (if c = ch then (i : Int) else acc)

/-- Member `QString::lastIndexOf(QChar)`: index of the last occurrence, `-1` when absent. -/
def lastIndexOf (s : QString) (ch : Char) : Int := lastIndexOfFrom ch s 0 (-1)

/-- Member `QString::size()`. -/
def size (s : QString) : Int := (s.length : Int)

/-- Member `QString::right(n)`: the `n` rightmost characters; the entire string when `n`
is negative or at least `size()`. -/
def right (s : QString) (n : Int) : QString :=
  if n < 0 ∨ n ≥ size s then s else s.drop (s.length - n.toNat)

/-- The test `a.compare(b, Qt::CaseInsensitive) == 0`. The right operands used here are
the ASCII words "wzm", "obj" and "pie", whose letters are the case folding of their
ASCII upper-case forms only, so folding is ASCII lower-casing. -/
def compareCaseInsensitiveEq (a b : QString) : Bool :=
  a.map Char.toLower == b.map Char.toLower

end QString

/-- Member `MainWindow::guessModelTypeFromFilename(fname, type)`: the returned pair is the
result and the value of the reference argument `type` after the call. -/
def guessModelTypeFromFilename (fname : QString) (type : wmit_filetype_t) :
    Bool × wmit_filetype_t :=
  let ext := QString.right fname (QString.size fname - QString.lastIndexOf fname '.' - 1)
  if QString.compareCaseInsensitiveEq ext "wzm".toList then (true, WMIT_FT_WZM)
  else if QString.compareCaseInsensitiveEq ext "obj".toList then (true, WMIT_FT_OBJ)
  else if QString.compareCaseInsensitiveEq ext "pie".toList then (true, WMIT_FT_PIE)
  else (false, type)

/-- The class `ModelInfo` (declared outside these sources), with the members that
`MainWindow.cpp` reads and writes. -/
structure ModelInfo where
  m_currentFile : QString
  m_saveAsFile : QString
  m_read_type : wmit_filetype_t
  m_save_type : wmit_filetype_t
  m_pieCaps : PieCaps

/-- What `MainWindow::loadModel` calls and does not define: the file stream, the readers
of the three formats, the PIE version sniff, the conversions and the import dialog.
`S` is the opened `std::ifstream`, `W` models `WZM`, `P2` `Pie2Model`, `P3` `Pie3Model`. -/
structure LoadEnv (S W P2 P3 : Type) where
  /-- The call `f.open(file.toLocal8Bit(), std::ios::in | std::ios::binary)`. -/
  openStream : QString → S
  /-- The call `model.read(f)` of `WZM`: success flag and the model afterwards. -/
  wzmRead : W → S → Bool × W
  /-- The call `model.importFromOBJ(f, welder)`. -/
  importFromOBJ : W → S → Bool → Bool × W
  /-- Whether `importDialog->exec()` returned `QDialog::Accepted`. -/
  importAccepted : Bool
  /-- The stored setting `WMIT_SETTINGS_IMPORT_WELDER`. -/
  welder : Bool
  /-- The call `pieVersion(f)`: the version and the stream afterwards. -/
  pieVersion : S → Int × S
  /-- The statements `Pie2Model p2; p2.read(f)`: success flag and `p2` afterwards. -/
  pie2Read : S → Bool × P2
  /-- The statements `Pie3Model p3; p3.read(f)`: success flag and `p3` afterwards. -/
  pie3Read : S → Bool × P3
  /-- The converting constructor `Pie3Model(const Pie2Model&)`. -/
  pie3OfPie2 : P2 → P3
  /-- The member `getCaps()` of `Pie3Model`. -/
  getCaps : P3 → PieCaps
  /-- The converting constructor `WZM(const Pie3Model&)`. -/
  wzmOfPie3 : P3 → W

/-- Member `MainWindow::loadModel(file, model, info, nogui)`: the result, and the values
of the reference arguments `model` and `info` after the call. The local `type` is
uninitialised before `guessModelTypeFromFilename` and read only after it was assigned;
its initial value is taken as `WMIT_FT_PIE`. -/
def loadModel {S W P2 P3 : Type} (env : LoadEnv S W P2 P3) (file : QString) (model : W)
    (info : ModelInfo) (nogui : Bool) : Bool × W × ModelInfo :=
  match guessModelTypeFromFilename file WMIT_FT_PIE with
  | (false, _) => (false, model, info)
  | (true, type) =>
    let info1 := { info with m_read_type := type }
    let f := env.openStream file
    match type with
    | WMIT_FT_WZM =>
      let r := env.wzmRead model f
      (r.1, r.2, info1)
    | WMIT_FT_OBJ =>
      if !nogui && !env.importAccepted then (false, model, info1)
      else
        let r := env.importFromOBJ model f env.welder
        (r.1, r.2, info1)
    | _ =>
      let pv := env.pieVersion f
      if pv.1 ≤ 2 then
        let r := env.pie2Read pv.2
        if r.1 then
          let p3 := env.pie3OfPie2 r.2
          (r.1, env.wzmOfPie3 p3, { info1 with m_pieCaps := env.getCaps p3 })
        else (r.1, model, info1)
      else
        let r := env.pie3Read pv.2
        if r.1 then
          (r.1, env.wzmOfPie3 r.2, { info1 with m_pieCaps := env.getCaps r.2 })
        else (r.1, model, info1)

/-- What `MainWindow::saveModel` calls and does not define. `O` is the `std::ofstream`,
`W` models `WZM`, `P2` `Pie2Model`, `P3` `Pie3Model`. -/
structure SaveEnv (O W P2 P3 : Type) where
  /-- The call `out.open(info.m_saveAsFile.toLocal8Bit().constData())`. -/
  openStream : QString → O
  /-- The call `model.write(out)` of `WZM`. -/
  wzmWrite : W → O → O
  /-- The call `model.exportToOBJ(out)`. -/
  exportToOBJ : W → O → O
  /-- The conversion `WZM::operator Pie3Model() const`. -/
  pie3OfWzm : W → P3
  /-- The conversion `Pie3Model::operator Pie2Model() const`. -/
  pie2OfPie3 : P3 → P2
  /-- The call `p2.write(out, piecaps)` with `piecaps` a pointer (`none` is `nullptr`). -/
  pie2Write : P2 → O → Option PieCaps → O
  /-- The call `p3.write(out, piecaps)`. -/
  pie3Write : P3 → O → Option PieCaps → O
  /-- The call `out.close()`. -/
  close : O → O

/-- Member `MainWindow::saveModel(model, info)`: the result and the output stream after
`out.close()`. -/
def saveModel {O W P2 P3 : Type} (env : SaveEnv O W P2 P3) (model : W) (info : ModelInfo) :
    Bool × O :=
  let out := env.openStream info.m_saveAsFile
  let out1 :=
    match info.m_save_type with
    | WMIT_FT_WZM => env.wzmWrite model out
    | WMIT_FT_OBJ => env.exportToOBJ model out
    | _ =>
      let p3 := env.pie3OfWzm model
      if info.m_save_type = WMIT_FT_PIE2 then
        let p2 := env.pie2OfPie3 p3
        env.pie2Write p2 out (some info.m_pieCaps)
      else
        env.pie3Write p3 out (some info.m_pieCaps)
  (true, env.close out1)

/-! ## Text input streams (`std::istream`, as far as the directive readers use it) -/

/-- A `std::istream` over a character buffer: the buffer, the read position
(`tellg`/`seekg`) and the fail bit. -/
structure IStream where
  data : List Char
  pos : Nat
  failed : Bool
  deriving DecidableEq, Repr

namespace IStream

/-- The whitespace set of `std::isspace` in the "C" locale. -/
def isSpace (c : Char) : Bool :=
  c = ' ' || c = '\t' || c = '\n' || c = '\r' || c = '\x0b' || c = '\x0c'

/-- The constructor `std::istringstream(text)`: position 0, no error. -/
def ofString (text : String) : IStream := ⟨text.toList, 0, false⟩

/-- The unread characters. -/
def rest (s : IStream) : List Char := s.data.drop s.pos

/-- The extraction `in >> std::string`: skips leading whitespace and takes the maximal run
of non-whitespace characters; an empty run (end of input) sets the fail bit. A stream that
has already failed extracts nothing. -/
def readWord (s : IStream) : Option (List Char) × IStream :=
  if s.failed then (none, s)
  else
    let r := s.rest.dropWhile isSpace
    let w := r.takeWhile (fun c => !isSpace c)
    let skipped := s.rest.length - r.length
    if w.isEmpty then (none, { s with pos := s.pos + skipped, failed := true })
    else (some w, { s with pos := s.pos + skipped + w.length })

/-- Value of a run of decimal digits, most significant first. -/
def digitsValue (ds : List Char) : Nat :=
  ds.foldl (fun acc c => 10 * acc + (c.toNat - '0'.toNat)) 0

/-- The extraction `in >> int`: skips leading whitespace, accepts an optional sign and a
non-empty run of decimal digits; no digits, or a value that does not fit a 32-bit `int`,
sets the fail bit. A stream that has already failed extracts nothing. -/
def readInt (s : IStream) : Option Int × IStream :=
  if s.failed then (none, s)
  else
    let r := s.rest.dropWhile isSpace
    let skipped := s.rest.length - r.length
    let neg := r.head? = some '-'
    let signLen := if r.head? = some '-' ∨ r.head? = some '+' then 1 else 0
    let ds := (r.drop signLen).takeWhile Char.isDigit
    let v : Int := if neg then -(digitsValue ds : Int) else (digitsValue ds : Int)
    let s1 := { s with pos := s.pos + skipped + signLen + ds.length }
    if ds.isEmpty ∨ v < -2147483648 ∨ 2147483647 < v then (none, { s1 with failed := true })
    else (some v, s1)

/-- The calls `in.clear(); in.seekg(p)`. -/
def seekg (s : IStream) (p : Nat) : IStream := { s with pos := p, failed := false }

end IStream

/-! ## The directive reader and the version sniff (declared in Pie.h) -/

/-- Modelled from the spec: the test that the scan of `tryToReadDirective` (declared in
Pie.h, defined outside these sources) makes on a line: the text begins with the keyword
and the keyword ends there, that is, the text ends or goes on with whitespace. -/
def matchKeyword : List Char → List Char → Bool
  | [], [] => true
  | [], c :: _ => IStream.isSpace c
  | _ :: _, [] => false
  | k :: ks, c :: cs => k == c && matchKeyword ks cs

/-- Modelled from the spec: the scan of `tryToReadDirective` "for a line beginning with the
keyword". `text` is the unread text, `atLineStart` tells whether it stands at the start of
a line (at the start of the stream or right behind a newline) and `p` is its position; the
result is the position of the first line start at which the keyword matches. -/
def scanDirectiveLine (kw : List Char) : List Char → Bool → Nat → Option Nat
  | [], atLineStart, p => if atLineStart && matchKeyword kw [] then some p else none
  | c :: cs, atLineStart, p =>
    if atLineStart && matchKeyword kw (c :: cs) then some p
    else scanDirectiveLine kw cs (c == '\n') (p + 1)

/-- Modelled from the spec: the scan of `tryToReadDirective`, started at the read position
of the stream. -/
def findDirectiveLine (in_ : IStream) (directive : String) : Option Nat :=
  scanDirectiveLine directive.toList in_.rest
    (decide (in_.pos = 0) || in_.data[in_.pos - 1]? == some '\n') in_.pos

/-- Modelled from the spec: the body of `tryToReadDirective(in, directive, isOptional,
dirLoaderFunc)` (declared in Pie.h, defined outside these sources). It "scans the stream
for a line beginning with the keyword; if found, invokes the handler on the remainder of
that logical block and returns whether the handler succeeded; if not found and the
directive is mandatory, the read fails; if not found and optional, the read succeeds
trivially (stream position unchanged)." The handler gets the stream positioned right
behind the keyword; a mandatory scan that finds nothing has read the stream to its end.
The pair is the result and the stream after the call. -/
def tryToReadDirective (in_ : IStream) (directive : String) (isOptional : Bool)
    (dirLoaderFunc : IStream → Bool × IStream) : Bool × IStream :=
  match findDirectiveLine in_ directive with
  | some p => dirLoaderFunc { in_ with pos := p + directive.toList.length }
  | none =>
    if isOptional then (true, in_)
    else (false, { in_ with pos := in_.data.length, failed := true })

/-- Modelled from the spec: the body of `pieVersion` (declared and documented in Pie.h;
its definition is outside these sources). It "inspects the stream's declared version
field, restores the stream position on success, and returns the integer version": the
signature word `PIE` and the integer after it are extracted and, when both succeed, the
stream is put back to its entry position. The value returned on failure is not specified; `-1` is taken. -/
def pieVersion (in_ : IStream) : Int × IStream :=
  let start := in_.pos
  match in_.readWord with
  | (some w, s1) =>
    if w = "PIE".toList then
      match s1.readInt with
      | (some version, s2) => (version, s2.seekg start)
      | (none, s2) => (-1, s2)
    else (-1, s1)
  | (none, s1) => (-1, s1)

/-! ## Polygons and the PIE2 to PIE3 fan triangulation (declared in Pie.h) -/

/-- Modelled from the spec: the class `Pie2Polygon` (its base template `PiePolygon` is in
`Polygon.h`, outside these sources), as far as the triangulation rule speaks of it: the
feature-flag word and the vertex index list. -/
structure Pie2Polygon where
  m_flags : Nat
  m_indices : List Nat
  deriving DecidableEq, Repr

/-- Modelled from the spec: the class `Pie3Polygon` (base template outside these
sources): the feature-flag word and the vertex index list. -/
structure Pie3Polygon where
  m_flags : Nat
  m_indices : List Nat
  deriving DecidableEq, Repr

/-- Modelled from the spec: the loop of `Pie3Polygon::upConvert` (defined outside these
sources): "first vertex as pivot, consecutive vertex pairs as the other two corners", in
source order. `pivot` is the first vertex index, the list holds the vertex indices that
follow it. -/
def Pie3Polygon.fan (flags : Nat) (pivot : Nat) : List Nat → List Pie3Polygon
  | a :: b :: tl => ⟨flags, [pivot, a, b]⟩ :: Pie3Polygon.fan flags pivot (b :: tl)
  | _ => []

/-- Modelled from the spec: the body of `Pie3Polygon::upConvert(pie2Poly, result)`
(declared in Pie.h, defined outside these sources): the triangles of the fan are appended
through the back-insert iterator `result` and their number is returned. The pair is the
returned count and the vector behind `result` after the call. -/
def Pie3Polygon.upConvert (pie2Poly : Pie2Polygon) (result : List Pie3Polygon) :
    Int × List Pie3Polygon :=
  match pie2Poly.m_indices with
  | [] => (0, result)
  | v0 :: tl =>
    let tris := Pie3Polygon.fan pie2Poly.m_flags v0 tl
    ((tris.length : Int), result ++ tris)

/-! ## Capability-set inclusion and file-name extensions (the words of the specification) -/

/-- A line beginning with the directive keyword starts at position `p` of the stream, at
or behind the read position: `p` is the start of the stream or follows a newline, the text
from `p` on begins with the keyword, and the character behind the keyword, if there is
one, is whitespace (so that the keyword is the first word of the line). -/
def DirectiveLineAt (in_ : IStream) (directive : String) (p : Nat) : Prop :=
  in_.pos ≤ p ∧ p ≤ in_.data.length ∧ (p = 0 ∨ in_.data[p - 1]? = some '\n') ∧
  directive.toList <+: in_.data.drop p ∧
  ∀ c ∈ in_.data[p + directive.toList.length]?, IStream.isSpace c = true

instance (in_ : IStream) (directive : String) (p : Nat) :
    Decidable (DirectiveLineAt in_ directive p) := by
  unfold DirectiveLineAt
  infer_instance

/-- The file name ends in '.' followed by the suffix, compared without regard to case. -/
def endsInSuffix (fname : QString) (ext : String) : Prop :=
  ∃ base e, fname = base ++ '.' :: e ∧ e.map Char.toLower = ext.toList

/-- The eight named directives, in the order of the enumeration. -/
def namedDirectives : List PIE_OPT_DIRECTIVES :=
  [podNORMALMAP, podSPECULARMAP, podEVENT, podMATERIALS, podSHADERS, podNORMALS,
    podCONNECTORS, podANIMOBJECT]

/-- The text after the last '.' of a file name, the whole name when it holds no '.'. -/
def textAfterLastDot (fname : QString) : QString :=
  (fname.reverse.takeWhile (fun c => c ≠ '.')).reverse

/-! ## The main window: opening a file and importing connectors (MainWindow.cpp) -/

/-- The members of `MainWindow` that `openFile` and `actionImport_Connectors` assign:
the model `*m_model`, the model info `m_modelinfo`, and the widgets and paths `ui`. -/
structure MainWindow (W U : Type) where
  m_model : W
  m_modelinfo : ModelInfo
  ui : U

/-- What the mesh loop of `actionImport_Connectors` calls on `WZM` and `Mesh` (both
declared outside these sources). -/
structure MeshEnv (W M : Type) where
  /-- The member `WZM::meshes()`. -/
  meshes : W → Int
  /-- The member `WZM::getMesh(index)`, for an index within `0 .. meshes() - 1`. -/
  getMesh : W → Int → M
  /-- The member `Mesh::connectors()`: the number of connectors. -/
  connectors : M → Int
  /-- The call `tgt_mesh.replaceConnectors(src_mesh)`: the target mesh afterwards. -/
  replaceConnectors : M → M → M
  /-- The model after the mesh behind the reference `getMesh(index)` was assigned. -/
  setMesh : W → Int → M → W

/-- What `openFile`, `clear` and `actionImport_Connectors` call and do not define. -/
structure WindowEnv (S W P2 P3 M U : Type) where
  /-- The collaborators of `loadModel`. -/
  load : LoadEnv S W P2 P3
  /-- The collaborators of the mesh loop. -/
  mesh : MeshEnv W M
  /-- A default-constructed `WZM`. -/
  newModel : W
  /-- A default-constructed `ModelInfo`. -/
  newInfo : ModelInfo
  /-- The default argument of the parameter `nogui` of `loadModel` (in MainWindow.h). -/
  noguiDefault : Bool
  /-- The call `QFileInfo(filePath).absoluteFilePath()`. -/
  absoluteFilePath : QString → QString
  /-- The call `fireTextureDialog(reinit)`: its result and the window afterwards. -/
  fireTextureDialog : Bool → MainWindow W U → Bool × MainWindow W U
  /-- The call `m_model->clear()`. -/
  wzmClear : W → W
  /-- The call `m_modelinfo.clear()`. -/
  infoClear : ModelInfo → ModelInfo
  /-- The call `setWindowTitle(buildAppTitle())`: the widgets afterwards. -/
  setWindowTitle : MainWindow W U → U
  /-- The call `m_materialDock->setMaterial(m_model->getMaterial())`. -/
  setMaterial : MainWindow W U → U
  /-- The call `doAfterModelWasLoaded(success)`; `none` when the argument is omitted. -/
  doAfterModelWasLoaded : Option Bool → MainWindow W U → U
  /-- The call `updateConnectorsView()`. -/
  updateConnectorsView : MainWindow W U → U
  /-- The file chosen in `QFileDialog::getOpenFileName` (empty when cancelled). -/
  conn_path : QString
  /-- Whether `QMessageBox::question` was answered with `QMessageBox::Yes`. -/
  replyYes : Bool

/-- Member `MainWindow::clear()`. -/
def MainWindow.clear {S W P2 P3 M U : Type} (env : WindowEnv S W P2 P3 M U)
    (mw : MainWindow W U) : MainWindow W U :=
  let mw1 := { mw with m_model := env.wzmClear mw.m_model,
                       m_modelinfo := env.infoClear mw.m_modelinfo }
  let mw2 := { mw1 with ui := env.setWindowTitle mw1 }
  { mw2 with ui := env.doAfterModelWasLoaded (some false) mw2 }

/-- Member `MainWindow::openFile(filePath)`: the result and the window afterwards. -/
def MainWindow.openFile {S W P2 P3 M U : Type} (env : WindowEnv S W P2 P3 M U)
    (mw : MainWindow W U) (filePath : QString) : Bool × MainWindow W U :=
  if filePath.isEmpty then (false, mw)
  else
    let r := loadModel env.load filePath env.newModel mw.m_modelinfo env.noguiDefault
    if r.1 then
      let mw1 := { mw with
        m_modelinfo := { r.2.2 with m_currentFile := env.absoluteFilePath filePath },
        m_model := r.2.1 }
      let mw2 := { mw1 with ui := env.setWindowTitle mw1 }
      let t := env.fireTextureDialog true mw2
      if !t.1 then (false, MainWindow.clear env t.2)
      else
        let mw3 := { t.2 with ui := env.setMaterial t.2 }
        (true, { mw3 with ui := env.doAfterModelWasLoaded none mw3 })
    else (true, mw)

/-- Why a call of `actionImport_Connectors` does not return: `getMesh` was called with an
index outside the meshes of the loaded model or of the current model, or the bitset
threw. -/
inductive ImportAbort where
  | newmodelIndex (index : Int)
  | modelIndex (index : Int)
  | bitset (e : StdError)
  deriving DecidableEq, Repr

/-- The locals that the mesh loop of `actionImport_Connectors` updates, with the current
model. -/
structure ImportLoopState (W : Type) where
  model : W
  need_ask_about_replacement : Bool
  replace_current_ones : Bool

/-- One pass of the body of the loop `for (int i = 0; i < maxmeshes; ++i)` of
`actionImport_Connectors`. -/
def importConnectorsStep {W M : Type} (env : MeshEnv W M) (replyYes : Bool) (newmodel : W)
    (i : Int) (st : ImportLoopState W) : Except ImportAbort (ImportLoopState W) :=
  if ¬ (0 ≤ i ∧ i < env.meshes newmodel) then .error (.newmodelIndex i)
  else
    let src_mesh := env.getMesh newmodel i
    if env.connectors src_mesh = 0 then .ok st
    else if ¬ (0 ≤ i ∧ i < env.meshes st.model) then .error (.modelIndex i)
    else
      let tgt_mesh := env.getMesh st.model i
      if env.connectors tgt_mesh ≠ 0 then
        let st1 : ImportLoopState W :=
          if st.need_ask_about_replacement then
            { st with need_ask_about_replacement := false,
                      replace_current_ones := if replyYes then true else st.replace_current_ones }
          else st
        if !st1.replace_current_ones then .ok st1
        else
          .ok { st1 with model := env.setMesh st1.model i (env.replaceConnectors tgt_mesh src_mesh) }
      else
        .ok { st with model := env.setMesh st.model i (env.replaceConnectors tgt_mesh src_mesh) }

/-- The loop `for (int i = 0; i < maxmeshes; ++i)` over the remaining values of `i`. -/
def importConnectorsLoop {W M : Type} (env : MeshEnv W M) (replyYes : Bool) (newmodel : W) :
    List Nat → ImportLoopState W → Except ImportAbort (ImportLoopState W)
  | [], st => .ok st
  | i :: tl, st =>
    match importConnectorsStep env replyYes newmodel (i : Int) st with
    | .ok st1 => importConnectorsLoop env replyYes newmodel tl st1
    | .error e => .error e

/-- Member `MainWindow::actionImport_Connectors()`: the window afterwards, or the reason
why the call does not return. -/
def MainWindow.actionImport_Connectors {S W P2 P3 M U : Type} (env : WindowEnv S W P2 P3 M U)
    (mw : MainWindow W U) : Except ImportAbort (MainWindow W U) :=
  if env.mesh.meshes mw.m_model = 0 then .ok mw
  else if env.conn_path.isEmpty then .ok mw
  else
    let r := loadModel env.load env.conn_path env.newModel env.newInfo env.noguiDefault
    if !r.1 then .ok mw
    else
      let newmodel := r.2.1
      let maxmeshes := max (env.mesh.meshes newmodel) (env.mesh.meshes mw.m_model)
      match importConnectorsLoop env.mesh env.replyYes newmodel (List.range maxmeshes.toNat)
          ⟨mw.m_model, true, false⟩ with
      | .error e => .error e
      | .ok st =>
        let mw1 := { mw with m_model := st.model }
        let mw2 := { mw1 with ui := env.updateConnectorsView mw1 }
        match mw2.m_modelinfo.m_pieCaps.set podCONNECTORS with
        | .ok caps => .ok { mw2 with m_modelinfo := { mw2.m_modelinfo with m_pieCaps := caps } }
        | .error e => .error (.bitset e)

/-! ## The recent-files list and "save as" (MainWindow.cpp) -/

/-- A `QStringList`, as the sequence of its strings. -/
abbrev QStringList := List QString

namespace QStringList

/-- Member `QStringList::removeAll(t)`: every entry equal to `t` is removed. -/
def removeAll (l : QStringList) (t : QString) : QStringList := l.filter (fun x => x ≠ t)

/-- Member `QStringList::prepend(t)`. -/
def prepend (l : QStringList) (t : QString) : QStringList := t :: l

/-- Member `QStringList::mid(pos, length)` for non-negative arguments: at most `length`
entries, starting at `pos`. -/
def mid (l : QStringList) (pos length : Nat) : QStringList := (l.drop pos).take length

/-- Scan of `removeDuplicates`: `seen` holds the entries already kept. -/
def removeDuplicatesFrom (seen : List QString) : QStringList → QStringList
  | [] => []
  | x :: xs =>
    if x ∈ seen then removeDuplicatesFrom seen xs
    else x :: removeDuplicatesFrom (x :: seen) xs

/-- Member `QStringList::removeDuplicates()`: of equal entries the first is kept. -/
def removeDuplicates (l : QStringList) : QStringList := removeDuplicatesFrom [] l

end QStringList

/-- Member `MainWindow::PrependFileToRecentList(filename)`: the list stored under
"recentFiles" afterwards, from the list `recentFiles` stored before. `absoluteFilePath`
is `QFileInfo(filename).absoluteFilePath()`. -/
def PrependFileToRecentList (absoluteFilePath : QString → QString) (recentFiles : QStringList)
    (filename : QString) : QStringList :=
  let l1 := QStringList.removeAll recentFiles (absoluteFilePath filename)
  let l2 := QStringList.prepend l1 (absoluteFilePath filename)
  QStringList.mid l2 0 10

/-- The list `recentFiles` inside the range-based `for` of `actionClearMissingFiles`. The
loop takes `begin()` and `end()` once, before the first pass, and the body shortens the
list under them; so the list is kept as the array `buf` of the slots between the two
iterators, of which the first `size` are the list, and `readPastEnd` records that a pass
read a slot behind the list. -/
structure IteratedList where
  buf : List QString
  size : Nat
  readPastEnd : Bool
  deriving DecidableEq, Repr

/-- The call `recentFiles.removeAll(curFile)` on the iterated list: the entries that stay
move to the front and the count drops; the slots behind them keep what they held. -/
def IteratedList.removeAll (l : IteratedList) (t : QString) : IteratedList :=
  let kept := QStringList.removeAll (l.buf.take l.size) t
  { l with buf := kept ++ l.buf.drop kept.length, size := kept.length }

/-- The passes of `for (auto& curFile: recentFiles)` for the iterator positions given:
`curFile` is the slot at the position, and when its file does not exist every entry equal
to it is removed. -/
def clearMissingLoop (fileExists : QString → Bool) : List Nat → IteratedList → IteratedList
  | [], l => l
  | i :: tl, l =>
    let curFile := l.buf.getD i []
    let l1 := { l with readPastEnd := l.readPastEnd || decide (l.size ≤ i) }
    if !fileExists curFile then clearMissingLoop fileExists tl (l1.removeAll curFile)
    else clearMissingLoop fileExists tl l1

/-- Member `MainWindow::actionClearMissingFiles()`: the list after the loop, from the
list `recentFiles` stored before; its first `size` slots are what
`QSettings().setValue("recentFiles", recentFiles)` stores. `fileExists` is
`QFileInfo(curFile).exists()`. -/
def actionClearMissingFiles (fileExists : QString → Bool) (recentFiles : QStringList) :
    IteratedList :=
  let l0 := QStringList.removeDuplicates recentFiles
  clearMissingLoop fileExists (List.range l0.length) ⟨l0, l0.length, false⟩

/-- The list that `actionClearMissingFiles` stores under "recentFiles". -/
def IteratedList.stored (l : IteratedList) : QStringList := l.buf.take l.size

/-- Member `QFileInfo::filePath()` of `QFileInfo(path)`, for a path with '/' separators:
the path as given. -/
def QFileInfo.filePath (path : QString) : QString := path

/-- Member `QFileInfo::fileName()`: the text after the last '/', the whole path when
there is none. -/
def QFileInfo.fileName (path : QString) : QString :=
  path.drop (QString.lastIndexOf path '/' + 1).toNat

/-- Member `QFileInfo::suffix()`: the text of the file name after its last '.', empty
when the file name holds no '.'. -/
def QFileInfo.suffix (path : QString) : QString :=
  let name := QFileInfo.fileName path
  let dot := QString.lastIndexOf name '.'
  if dot < 0 then [] else name.drop (dot.toNat + 1)

/-- Member `QString::toLower()`. The results are compared with the ASCII words "pie",
"obj" and "wzm" only, and the letters of these are the lower case of their ASCII upper-case
forms only, so lower-casing is ASCII lower-casing. -/
def QString.toLower (s : QString) : QString := s.map Char.toLower

/-- The local `filters` of `actionSaveAs`. -/
def saveAsFilters : QStringList :=
  ["PIE3 models (*.pie)".toList, "PIE2 models (*.pie)".toList, "WZM models (*.wzm)".toList,
    "OBJ files (*.obj)".toList]

/-- The local `types` of `actionSaveAs`. -/
def saveAsTypes : List wmit_filetype_t :=
  [WMIT_FT_PIE, WMIT_FT_PIE2, WMIT_FT_WZM, WMIT_FT_OBJ]

/-- The expression `types[filters.indexOf(selectedNameFilter)]` of `actionSaveAs`, which
is evaluated for a filter that `filters` contains. -/
def selectedSaveType (selectedNameFilter : QString) : wmit_filetype_t :=
  saveAsTypes.getD (saveAsFilters.indexOf selectedNameFilter) WMIT_FT_PIE

/-- What `MainWindow::actionSaveAs` calls and does not define: the outcome of the file
dialog and of the PIE export dialog, `ModelInfo::defaultPieCapsIfNeeded`, and the
collaborators of `PrependFileToRecentList` and `saveModel`. -/
structure SaveAsEnv (O W P2 P3 U : Type) where
  /-- Whether `fDialog->result()` is `QDialog::Accepted`. -/
  dialogAccepted : Bool
  /-- The call `fDialog->selectedNameFilter()`. -/
  selectedNameFilter : QString
  /-- The call `fDialog->selectedFiles().first()`. -/
  selectedFile : QString
  /-- The statements that refresh `m_pathExport` and store it in the settings. -/
  refreshExportDir : U → U
  /-- The capability set of the model info after `defaultPieCapsIfNeeded()`. -/
  defaultPieCaps : ModelInfo → PieCaps
  /-- Whether the PIE export dialog ended with `QDialog::Accepted`. -/
  exportAccepted : Bool
  /-- The call `getCaps()` of the PIE export dialog opened on the given set. -/
  exportCaps : PieCaps → PieCaps
  /-- The call `QFileInfo(filename).absoluteFilePath()`. -/
  absoluteFilePath : QString → QString
  /-- The collaborators of `saveModel`. -/
  save : SaveEnv O W P2 P3

/-- The fix-up of `actionSaveAs`: `if (finfo.suffix().toLower() != ext) m_saveAsFile +=
"." + ext`, for the file `selectedFile` behind `finfo` and the name `saveAsFile` so far. -/
def fixSuffix (selectedFile saveAsFile : QString) (ext : String) : QString :=
  if QString.toLower (QFileInfo.suffix selectedFile) ≠ ext.toList then
    saveAsFile ++ '.' :: ext.toList
  else saveAsFile

/-- Member `MainWindow::actionSaveAs()`: the window afterwards, the list stored under
"recentFiles" afterwards, and the result of `saveModel` when it was reached. The second
component of the local `tmp3` tells whether the PIE export dialog `dlg` was created. -/
def MainWindow.actionSaveAs {O W P2 P3 U : Type} (env : SaveAsEnv O W P2 P3 U)
    (mw : MainWindow W U) (recentFiles : QStringList) :
    MainWindow W U × QStringList × Option (Bool × O) :=
  let tmpModelinfo := mw.m_modelinfo
  if !env.dialogAccepted then (mw, recentFiles, none)
  else if !saveAsFilters.contains env.selectedNameFilter then (mw, recentFiles, none)
  else
    let tmp1 := { tmpModelinfo with m_save_type := selectedSaveType env.selectedNameFilter }
    let mw1 := { mw with ui := env.refreshExportDir mw.ui }
    let tmp2 := { tmp1 with m_saveAsFile := QFileInfo.filePath env.selectedFile }
    let tmp3 : ModelInfo × Bool :=
      match tmp2.m_save_type with
      | WMIT_FT_PIE | WMIT_FT_PIE2 =>
        let t1 := { tmp2 with m_pieCaps := env.defaultPieCaps tmp2 }
        let t2 :=
          if env.exportAccepted then { t1 with m_pieCaps := env.exportCaps t1.m_pieCaps } else t1
        ({ t2 with m_saveAsFile := fixSuffix env.selectedFile t2.m_saveAsFile "pie" }, true)
      | WMIT_FT_OBJ =>
        ({ tmp2 with m_saveAsFile := fixSuffix env.selectedFile tmp2.m_saveAsFile "obj" }, false)
      | WMIT_FT_WZM =>
        ({ tmp2 with m_saveAsFile := fixSuffix env.selectedFile tmp2.m_saveAsFile "wzm" }, false)
    if tmp3.2 && !env.exportAccepted then (mw1, recentFiles, none)
    else
      let mw2 := { mw1 with m_modelinfo := tmp3.1 }
      let recent1 := PrependFileToRecentList env.absoluteFilePath recentFiles
        mw2.m_modelinfo.m_saveAsFile
      (mw2, recent1, some (saveModel env.save mw2.m_model mw2.m_modelinfo))

/-- The suffix that belongs to a save type: "pie" for PIE and PIE2, "wzm", "obj". -/
def suffixOfSaveType : wmit_filetype_t → String
  | WMIT_FT_PIE => "pie"
  | WMIT_FT_PIE2 => "pie"
  | WMIT_FT_WZM => "wzm"
  | WMIT_FT_OBJ => "obj"

/-- The format a file saved with a save type is to be read as: PIE for PIE and PIE2. -/
def readTypeOfSaveType : wmit_filetype_t → wmit_filetype_t
  | WMIT_FT_PIE => WMIT_FT_PIE
  | WMIT_FT_PIE2 => WMIT_FT_PIE
  | WMIT_FT_WZM => WMIT_FT_WZM
  | WMIT_FT_OBJ => WMIT_FT_OBJ

/-! ## Sample collaborators, used to run `loadModel` and `saveModel` on concrete inputs -/

/-- A sample environment for `loadModel`: streams are `IStream`s over the file name's
text, every model type is a number, the PIE readers succeed exactly on a stream that has
not failed, and the version sniff is `pieVersion`. -/
def sampleLoadEnv (caps : PieCaps) : LoadEnv IStream Nat Nat Nat where
  openStream := fun file => ⟨file, 0, false⟩
  wzmRead := fun w _ => (true, w + 1)
  importFromOBJ := fun w _ _ => (true, w + 2)
  importAccepted := true
  welder := true
  pieVersion := pieVersion
  pie2Read := fun s => (!s.failed, 20)
  pie3Read := fun s => (!s.failed, 30)
  pie3OfPie2 := fun p2 => p2 + 1
  getCaps := fun _ => caps
  wzmOfPie3 := fun p3 => p3 + 100

/-- A sample environment for `saveModel`: the output stream is the list of the write
calls made on it. -/
def sampleSaveEnv : SaveEnv (List (String × Nat × Option PieCaps)) Nat Nat Nat where
  openStream := fun _ => []
  wzmWrite := fun w out => out ++ [("wzm", w, none)]
  exportToOBJ := fun w out => out ++ [("obj", w, none)]
  pie3OfWzm := fun w => w + 3
  pie2OfPie3 := fun p3 => p3 + 2
  pie2Write := fun p2 out caps => out ++ [("pie2", p2, caps)]
  pie3Write := fun p3 out caps => out ++ [("pie3", p3, caps)]
  close := fun out => out

/-- A sample model info whose capability set is empty. -/
def sampleInfo (save_type : wmit_filetype_t) : ModelInfo where
  m_currentFile := []
  m_saveAsFile := "out.pie".toList
  m_read_type := WMIT_FT_WZM
  m_save_type := save_type
  m_pieCaps := EnumClassBitset.empty

/-- A sample directive handler: it reads one integer and succeeds when that works. -/
def sampleHandler (s : IStream) : Bool × IStream :=
  ((s.readInt).1.isSome, (s.readInt).2)

/-- A sample environment for `saveModel` whose output file cannot be opened: the stream
is the pair of its open flag and the write calls that reached it, and a write on a stream
that is not open leaves nothing behind. -/
def unopenedSaveEnv : SaveEnv (Bool × List (String × Nat)) Nat Nat Nat where
  openStream := fun _ => (false, [])
  wzmWrite := fun w out => if out.1 then (out.1, out.2 ++ [("wzm", w)]) else out
  exportToOBJ := fun w out => if out.1 then (out.1, out.2 ++ [("obj", w)]) else out
  pie3OfWzm := fun w => w + 3
  pie2OfPie3 := fun p3 => p3 + 2
  pie2Write := fun p2 out _ => if out.1 then (out.1, out.2 ++ [("pie2", p2)]) else out
  pie3Write := fun p3 out _ => if out.1 then (out.1, out.2 ++ [("pie3", p3)]) else out
  close := fun out => (false, out.2)

/-- A sample mesh environment: a model is the list of its meshes and a mesh is the number
of its connectors. -/
def sampleMeshEnv : MeshEnv (List Nat) Nat where
  meshes := fun w => (w.length : Int)
  getMesh := fun w i => w.getD i.toNat 0
  connectors := fun m => (m : Int)
  replaceConnectors := fun _ src => src
  setMesh := fun w i m => w.set i.toNat m

/-- A sample environment for the main window: the stream of a file is its name, and a
WZM file named by decimal digits loads as one mesh per digit, the digit being the number
of connectors of the mesh; PIE files fail to load. -/
def sampleWindowEnv (conn_path : QString) : WindowEnv QString (List Nat) Nat Nat Nat Nat where
  load :=
    { openStream := fun file => file
      wzmRead := fun _ f => (true, (f.takeWhile Char.isDigit).map (fun c => c.toNat - 48))
      importFromOBJ := fun w _ _ => (false, w)
      importAccepted := true
      welder := true
      pieVersion := fun f => (3, f)
      pie2Read := fun _ => (false, 0)
      pie3Read := fun _ => (false, 0)
      pie3OfPie2 := fun p2 => p2
      getCaps := fun _ => EnumClassBitset.empty
      wzmOfPie3 := fun _ => [] }
  mesh := sampleMeshEnv
  newModel := []
  newInfo := sampleInfo WMIT_FT_PIE
  noguiDefault := false
  absoluteFilePath := fun f => f
  fireTextureDialog := fun _ mw => (true, mw)
  wzmClear := fun _ => []
  infoClear := fun _ => sampleInfo WMIT_FT_PIE
  setWindowTitle := fun mw => mw.ui + 1
  setMaterial := fun mw => mw.ui + 1
  doAfterModelWasLoaded := fun _ mw => mw.ui + 1
  updateConnectorsView := fun mw => mw.ui + 1
  conn_path := conn_path
  replyYes := true

/-- A sample window: a model of two meshes without connectors and an empty capability
set. -/
def sampleWindow : MainWindow (List Nat) Nat where
  m_model := [0, 0]
  m_modelinfo := sampleInfo WMIT_FT_PIE
  ui := 0

/-- A sample environment for `actionSaveAs`: both dialogs are accepted, the filter and the
file are the ones given. -/
def sampleSaveAsEnv (selectedNameFilter selectedFile : String) :
    SaveAsEnv (List (String × Nat × Option PieCaps)) Nat Nat Nat Nat where
  dialogAccepted := true
  selectedNameFilter := selectedNameFilter.toList
  selectedFile := selectedFile.toList
  refreshExportDir := fun ui => ui + 1
  defaultPieCaps := fun info => info.m_pieCaps
  exportAccepted := true
  exportCaps := fun caps => caps
  absoluteFilePath := fun f => f
  save := sampleSaveEnv

/-- A sample window for `actionSaveAs`: the model is a number. -/
def sampleSaveWindow : MainWindow Nat Nat where
  m_model := 1
  m_modelinfo := sampleInfo WMIT_FT_WZM
  ui := 0

/-! ## Capability sets: verified properties -/

theorem StdBitset.copyFrom_bit {N : Nat} (str : List Char) (M : Nat) (k : Nat)
    (b : StdBitset N) (j : Fin N) :
    (StdBitset.copyFrom str M k b).bit j =
      if j.val < k then !decide (str.getD (M - 1 - j.val) '0' = '0') else b.bit j := by
  induction k with
  | zero => simp [StdBitset.copyFrom]
  | succ i ih =>
    simp only [StdBitset.copyFrom]
    by_cases hj : j.val = i
    · have hlt : j.val < i + 1 := by omega
      rw [if_pos hlt]
      split
      · rename_i hc
        rw [hj, hc]
        simp only [StdBitset.uncheckedSet, if_pos hj]
        rfl
      · rename_i hc
        rw [hj, decide_eq_false hc]
        simp only [StdBitset.uncheckedSet, if_pos hj]
        rfl
    · have hrhs : (if j.val < i + 1 then !decide (str.getD (M - 1 - j.val) '0' = '0')
          else b.bit j) = (StdBitset.copyFrom str M i b).bit j := by
        rw [ih]
        by_cases h1 : j.val < i
        · rw [if_pos h1, if_pos (by omega)]
        · rw [if_neg h1, if_neg (by omega)]
      rw [hrhs]
      split <;> simp only [StdBitset.uncheckedSet, if_neg hj]

theorem get_value_lt_of_named (d : PIE_OPT_DIRECTIVES) (hd : d ≠ pod_MAXVAL) :
    get_value d < get_value EnumTraits.max := by
  cases d <;> simp_all [get_value, EnumTraits.max]

theorem bit_char_iff (cs : List Char) (i : Nat) (hidx : 7 - i < cs.length)
    (hchars : ∀ ch ∈ cs, ch = '0' ∨ ch = '1') :
    (!decide (cs.getD (8 - 1 - i) '0' = '0')) = true ↔ cs[7 - i]? = some '1' := by
  have hget : cs[7 - i]? = some (cs[7 - i]) := List.getElem?_eq_getElem hidx
  have hD : cs.getD (8 - 1 - i) '0' = cs[7 - i] := by
    simp [List.getD, hget]
  rw [hD, hget]
  rcases hchars _ (List.getElem_mem hidx) with h | h <;> simp [h]

/-- C1: for an 8-character string over '0' and '1', the capability set built from it
exists and `test d` of a named directive with index `i` is true exactly when the
character at position `7 - i` is '1'. -/
theorem C1_ofString_test_reversed (s : String) (hlen : s.toList.length = 8)
    (hchars : ∀ ch ∈ s.toList, ch = '0' ∨ ch = '1')
    (d : PIE_OPT_DIRECTIVES) (hd : d ≠ pod_MAXVAL) :
    ∃ caps, EnumClassBitset.ofString s = .ok caps ∧
      ∃ t, caps.test d = .ok t ∧ (t = true ↔ s.toList[7 - get_value d]? = some '1') := by
  have hall : ((s.toList.take 8).all fun c => c = '0' || c = '1') = true := by
    rw [List.all_eq_true]
    intro ch hch
    rcases hchars ch (List.mem_of_mem_take hch) with h | h <;> simp [h]
  have hN : get_value EnumTraits.max = 8 := rfl
  have hlt := get_value_lt_of_named d hd
  have hidx : 7 - get_value d < s.toList.length := by omega
  let b : StdBitset (get_value EnumTraits.max) := StdBitset.copyFrom s.toList 8 8 StdBitset.zero
  refine ⟨⟨b⟩, ?_, ?_⟩
  · simp only [EnumClassBitset.ofString, StdBitset.ofString, hall, hlen, hN, if_true,
      Nat.min_self]
  · refine ⟨b.bit ⟨get_value d, hlt⟩, ?_, ?_⟩
    · simp only [EnumClassBitset.test, StdBitset.test, dif_pos hlt]
    · show (StdBitset.copyFrom s.toList 8 8 StdBitset.zero).bit ⟨get_value d, hlt⟩ = true ↔ _
      rw [StdBitset.copyFrom_bit]
      have hlt8 : get_value d < 8 := hlt
      simp only [hlt8, if_true]
      exact bit_char_iff s.toList (get_value d) hidx hchars

/-- Witness of C1 at the literal "11010111" and the directive EVENT. -/
theorem C1_ofString_test_reversed_witness :
    "11010111".toList.length = 8 ∧ podEVENT ≠ pod_MAXVAL ∧
    ∃ caps, EnumClassBitset.ofString "11010111" = .ok caps ∧
      ∃ t, caps.test podEVENT = .ok t ∧
        (t = true ↔ "11010111".toList[7 - get_value podEVENT]? = some '1') :=
  ⟨by decide, by decide,
    C1_ofString_test_reversed "11010111" (by decide) (by decide) podEVENT (by decide)⟩

theorem PIE2_CAPS_test (c : PieCaps) (h : PIE2_CAPS = .ok c) (d : PIE_OPT_DIRECTIVES) :
    c.test d = (PIE2_CAPS.bind fun x => x.test d) := by
  rw [h]; rfl

/-- C2 as stated fails: no capability set built from "11010111" has bit 0 set, bit 7
set and bit 2 (EVENT) clear, because the character deciding bit 2 is '1'. -/
theorem C2_caps_literal_event_clear_false :
    ¬ ∃ c, PIE2_CAPS = .ok c ∧ PIE3_CAPS = .ok c ∧ c.test podNORMALMAP = .ok true ∧
      c.test podANIMOBJECT = .ok true ∧ c.test podEVENT = .ok false := by
  rintro ⟨c, h2, -, -, -, hev⟩
  rw [PIE2_CAPS_test c h2 podEVENT] at hev
  exact absurd hev (by decide)

/-- C2 (amended): in the capability set built from "11010111", the value of both
PIE2_CAPS and PIE3_CAPS, bit 0 is set, bit 7 is set and bit 2 (EVENT) is set; the two
'0' characters clear bit 3 (MATERIALS) and bit 5 (NORMALS). -/
theorem C2_caps_literal_bits :
    ∃ c, PIE2_CAPS = .ok c ∧ PIE3_CAPS = .ok c ∧ c.test podNORMALMAP = .ok true ∧
      c.test podANIMOBJECT = .ok true ∧ c.test podEVENT = .ok true ∧
      c.test podMATERIALS = .ok false ∧ c.test podNORMALS = .ok false := by
  have hall : (("11010111".toList.take (min 8 "11010111".toList.length)).all
      fun c => c = '0' || c = '1') = true := by decide
  refine ⟨⟨StdBitset.copyFrom "11010111".toList 8 8 StdBitset.zero⟩, ?_, ?_, ?_, ?_, ?_, ?_, ?_⟩
  · simp only [PIE2_CAPS, EnumClassBitset.ofString, StdBitset.ofString, hall, if_true]
    rfl
  · simp only [PIE3_CAPS, EnumClassBitset.ofString, StdBitset.ofString, hall, if_true]
    rfl
  all_goals decide

/-! ## Animation objects: verified properties -/

/-- C10: an animation object is valid exactly when its frame sequence is non-empty,
whatever `time`, `cycles` and the declared `numframes` are (in particular when
`numframes` differs from the number of stored frames), and after `clear()` it is not
valid. -/
theorem C10_isValid_iff_frames_nonempty {F : Type} (o : ApieAnimObject F) :
    (o.isValid = true ↔ o.frames ≠ []) ∧
    (∀ time cycles numframes : Int,
      ApieAnimObject.isValid { o with time := time, cycles := cycles, numframes := numframes }
        = o.isValid) ∧
    (∀ numframes : Int, numframes ≠ (o.frames.length : Int) → o.frames ≠ [] →
      ApieAnimObject.isValid { o with numframes := numframes } = true) ∧
    o.clear.isValid = false := by
  refine ⟨?_, ?_, ?_, ?_⟩
  · cases hf : o.frames <;> simp [ApieAnimObject.isValid, hf]
  · intro _ _ _; rfl
  · intro _ _ hne
    cases hf : o.frames
    · exact absurd hf hne
    · simp [ApieAnimObject.isValid, hf]
  · rfl

/-- Witness of C10: one stored frame with a declared frame count of 5. -/
theorem C10_isValid_iff_frames_nonempty_witness :
    ApieAnimObject.isValid
      ({ time := 0, cycles := 1, numframes := 5,
         frames := [⟨0, ⟨0, 0, 0⟩, ⟨0, 0, 0⟩, ⟨1, 1, 1⟩⟩] } : ApieAnimObject Nat) = true :=
  (C10_isValid_iff_frames_nonempty
    ({ time := 0, cycles := 1, numframes := 5,
       frames := [⟨0, ⟨0, 0, 0⟩, ⟨0, 0, 0⟩, ⟨1, 1, 1⟩⟩] } : ApieAnimObject Nat)).2.2.1 5
    (by decide) (by simp)

/-! ## Fan triangulation: verified properties -/

theorem Pie3Polygon.fan_length (flags pivot : Nat) (l : List Nat) :
    (Pie3Polygon.fan flags pivot l).length = l.length - 1 := by
  induction l with
  | nil => rfl
  | cons a tl ih =>
    cases tl with
    | nil => rfl
    | cons b tl2 =>
      simp only [Pie3Polygon.fan, List.length_cons, ih]
      omega

theorem Pie3Polygon.fan_get (flags pivot : Nat) (l : List Nat) (k : Nat)
    (hk : k + 1 < l.length) :
    ∃ a b, l[k]? = some a ∧ l[k + 1]? = some b ∧
      (Pie3Polygon.fan flags pivot l)[k]? = some ⟨flags, [pivot, a, b]⟩ := by
  induction l generalizing k with
  | nil => simp at hk
  | cons a tl ih =>
    cases tl with
    | nil => simp at hk
    | cons b tl2 =>
      cases k with
      | zero => exact ⟨a, b, by simp, by simp, by simp [Pie3Polygon.fan]⟩
      | succ j =>
        have hj : j + 1 < (b :: tl2).length := by
          simp only [List.length_cons] at hk ⊢
          omega
        obtain ⟨x, y, hx, hy, hf⟩ := ih j hj
        refine ⟨x, y, ?_, ?_, ?_⟩
        · simpa using hx
        · simpa using hy
        · simpa [Pie3Polygon.fan] using hf

/-- C4: a PIE2 polygon with n >= 3 vertex indices upconverts to exactly n-2 triangles,
appended to the result, and that count is returned; the k-th triangle (k = 1..n-2) has
the indices (v0, vk, v(k+1)). -/
theorem C4_upConvert_fan (pie2Poly : Pie2Polygon) (result : List Pie3Polygon)
    (hn : 3 ≤ pie2Poly.m_indices.length) :
    (Pie3Polygon.upConvert pie2Poly result).1 = ((pie2Poly.m_indices.length - 2 : Nat) : Int) ∧
    ∃ tris, (Pie3Polygon.upConvert pie2Poly result).2 = result ++ tris ∧
      tris.length = pie2Poly.m_indices.length - 2 ∧
      ∀ k, 1 ≤ k → k ≤ pie2Poly.m_indices.length - 2 →
        ∃ t v0 vk vk1, tris[k - 1]? = some t ∧ pie2Poly.m_indices[0]? = some v0 ∧
          pie2Poly.m_indices[k]? = some vk ∧ pie2Poly.m_indices[k + 1]? = some vk1 ∧
          t.m_indices = [v0, vk, vk1] := by
  obtain ⟨flags, idx⟩ := pie2Poly
  cases idx with
  | nil => simp at hn
  | cons v0 tl =>
    simp only [List.length_cons] at hn
    have hlen := Pie3Polygon.fan_length flags v0 tl
    refine ⟨?_, Pie3Polygon.fan flags v0 tl, rfl, ?_, ?_⟩
    · simp only [Pie3Polygon.upConvert, hlen, List.length_cons]
      congr 1
    · simp only [hlen, List.length_cons]
      omega
    · intro k h1 h2
      simp only [List.length_cons] at h2
      obtain ⟨j, rfl⟩ : ∃ j, k = j + 1 := ⟨k - 1, by omega⟩
      obtain ⟨a, b, ha, hb, hf⟩ := Pie3Polygon.fan_get flags v0 tl j (by omega)
      refine ⟨⟨flags, [v0, a, b]⟩, v0, a, b, ?_, by simp, ?_, ?_, rfl⟩
      · simpa using hf
      · simpa using ha
      · simpa using hb

/-- Witness of C4: the pentagon with the indices 5, 6, 7, 8, 9. -/
theorem C4_upConvert_fan_witness :
    3 ≤ (⟨0, [5, 6, 7, 8, 9]⟩ : Pie2Polygon).m_indices.length ∧
    (Pie3Polygon.upConvert ⟨0, [5, 6, 7, 8, 9]⟩ []).1 = 3 :=
  ⟨by decide, (C4_upConvert_fan ⟨0, [5, 6, 7, 8, 9]⟩ [] (by decide)).1⟩

/-! ## Directive reader and version sniff: verified properties -/

theorem takeWhile_append_stop {α : Type} (p : α → Bool) (l : List α) (c : α) (tl : List α)
    (hl : ∀ x ∈ l, p x = true) (hc : p c = false) :
    (l ++ c :: tl).takeWhile p = l := by
  induction l with
  | nil => simp [List.takeWhile, hc]
  | cons a l ih =>
    have ha : p a = true := hl a (List.mem_cons_self a l)
    rw [List.cons_append, List.takeWhile_cons, ha, if_pos rfl,
      ih (fun x hx => hl x (List.mem_cons_of_mem a hx))]

theorem IStream.rest_advance (s : IStream) (k : Nat) (l : List Char) (h : s.rest = l) :
    IStream.rest { s with pos := s.pos + k } = l.drop k := by
  simp only [IStream.rest] at h ⊢
  rw [← h, List.drop_drop]

theorem isDigit_not_isSpace (c : Char) (h : c.isDigit = true) : IStream.isSpace c = false := by
  cases hs : IStream.isSpace c
  · rfl
  · exfalso
    simp only [IStream.isSpace, Bool.or_eq_true, decide_eq_true_eq] at hs
    rcases hs with ((((rfl | rfl) | rfl) | rfl) | rfl) | rfl <;> exact absurd h (by decide)

theorem IStream.readWord_signature (s : IStream) (l : List Char) (hf : s.failed = false)
    (hrest : s.rest = 'P' :: 'I' :: 'E' :: ' ' :: l) :
    s.readWord = (some "PIE".toList, { s with pos := s.pos + 0 + 3 }) := by
  have hdrop : ('P' :: 'I' :: 'E' :: ' ' :: l).dropWhile IStream.isSpace
      = 'P' :: 'I' :: 'E' :: ' ' :: l := by
    rw [List.dropWhile_cons, if_neg (by decide)]
  have htake : ('P' :: 'I' :: 'E' :: ' ' :: l).takeWhile (fun c => !IStream.isSpace c)
      = ['P', 'I', 'E'] := by
    rw [List.takeWhile_cons, if_pos (by decide), List.takeWhile_cons, if_pos (by decide),
      List.takeWhile_cons, if_pos (by decide), List.takeWhile_cons, if_neg (by decide)]
  simp only [IStream.readWord, hf, hrest, hdrop, htake, Nat.sub_self]
  rfl

theorem IStream.readInt_digits (s : IStream) (d : Char) (ds : List Char) (c : Char)
    (tl : List Char) (hf : s.failed = false)
    (hrest : s.rest = ' ' :: ((d :: ds) ++ c :: tl))
    (hdig : ∀ x ∈ d :: ds, x.isDigit = true) (hc : c.isDigit = false)
    (hrange : IStream.digitsValue (d :: ds) ≤ 2147483647) :
    s.readInt = (some (IStream.digitsValue (d :: ds) : Int),
      { s with pos := s.pos + 1 + 0 + (d :: ds).length }) := by
  have hd : d.isDigit = true := hdig d (List.mem_cons_self d ds)
  have hsp : IStream.isSpace d = false := isDigit_not_isSpace d hd
  have hdrop : (' ' :: ((d :: ds) ++ c :: tl)).dropWhile IStream.isSpace
      = (d :: ds) ++ c :: tl := by
    rw [List.dropWhile_cons, if_pos (by decide), List.cons_append, List.dropWhile_cons, hsp]
    rfl
  have hminus : ¬ d = '-' := by
    intro h; rw [h] at hd; exact absurd hd (by decide)
  have hplus : ¬ d = '+' := by
    intro h; rw [h] at hd; exact absurd hd (by decide)
  have htake : ((d :: ds) ++ c :: tl).takeWhile Char.isDigit = d :: ds :=
    takeWhile_append_stop Char.isDigit (d :: ds) c tl hdig hc
  simp only [IStream.readInt, hf, hrest, hdrop]
  have htake2 : (d :: (ds ++ c :: tl)).takeWhile Char.isDigit = d :: ds := htake
  have hcond : ¬ (d.isDigit = false ∨
      (IStream.digitsValue (d :: ds) : Int) < -2147483648 ∨
      2147483647 < IStream.digitsValue (d :: ds)) := by
    rintro (h | h | h)
    · rw [hd] at h; cases h
    · omega
    · omega
  simp [hminus, hplus, htake2, hcond]
  omega

/-- On a stream that stands at the text `PIE`, one blank, a run of decimal digits that fits
an `int`, and then a character that is not a digit, `pieVersion` returns the value of the
digits and leaves the stream as it was. -/
theorem pieVersion_of_document (s : IStream) (d : Char) (ds : List Char) (c : Char)
    (tl : List Char) (hf : s.failed = false)
    (hrest : s.rest = 'P' :: 'I' :: 'E' :: ' ' :: ((d :: ds) ++ c :: tl))
    (hdig : ∀ x ∈ d :: ds, x.isDigit = true) (hc : c.isDigit = false)
    (hrange : IStream.digitsValue (d :: ds) ≤ 2147483647) :
    pieVersion s = ((IStream.digitsValue (d :: ds) : Int), s) := by
  have h1 := IStream.readWord_signature s _ hf hrest
  have hr1 : IStream.rest { s with pos := s.pos + 0 + 3 } = ' ' :: ((d :: ds) ++ c :: tl) :=
    IStream.rest_advance s 3 _ hrest
  have h2 := IStream.readInt_digits { s with pos := s.pos + 0 + 3 } d ds c tl hf hr1 hdig hc
    hrange
  simp only [pieVersion, h1, h2, if_true, IStream.seekg]
  obtain ⟨data, pos, failed⟩ := s
  simp only at hf
  rw [hf]

/-- C6: on a stream whose signature word and version field parse, `pieVersion` returns
the declared version and leaves the read position where it was before the call. -/
theorem C6_pieVersion_restores_position (in_ s1 s2 : IStream) (version : Int)
    (hsig : in_.readWord = (some "PIE".toList, s1))
    (hver : s1.readInt = (some version, s2)) :
    (pieVersion in_).1 = version ∧ (pieVersion in_).2.pos = in_.pos := by
  simp only [pieVersion, hsig, hver, if_true, IStream.seekg, and_self]

/-- Witness of C6: the document "PIE 3 / TYPE 200" read from position 0. -/
theorem C6_pieVersion_restores_position_witness :
    (pieVersion (IStream.ofString "PIE 3\nTYPE 200\n")).1 = 3 ∧
    (pieVersion (IStream.ofString "PIE 3\nTYPE 200\n")).2.pos
      = (IStream.ofString "PIE 3\nTYPE 200\n").pos :=
  C6_pieVersion_restores_position (IStream.ofString "PIE 3\nTYPE 200\n")
    ⟨"PIE 3\nTYPE 200\n".toList, 3, false⟩ ⟨"PIE 3\nTYPE 200\n".toList, 5, false⟩ 3
    (by decide) (by decide)

/-! ## `loadModel` and `saveModel`: verified properties -/

/-- C7: for a file classified as PIE, with v the value returned by `pieVersion`: when
v <= 2 the result of `loadModel` is the success flag of `Pie2Model::read` and, on success,
the model is the `WZM` of the upconverted `Pie3Model` and `info.m_pieCaps` is that model's
capability set; when v >= 3 the same holds with `Pie3Model::read` and the model read. -/
theorem C7_loadModel_version_selection {S W P2 P3 : Type} (env : LoadEnv S W P2 P3)
    (file : QString) (model : W) (info : ModelInfo) (nogui : Bool)
    (hpie : guessModelTypeFromFilename file WMIT_FT_PIE = (true, WMIT_FT_PIE)) :
    ((env.pieVersion (env.openStream file)).1 ≤ 2 →
      (loadModel env file model info nogui).1
        = (env.pie2Read (env.pieVersion (env.openStream file)).2).1 ∧
      ((env.pie2Read (env.pieVersion (env.openStream file)).2).1 = true →
        (loadModel env file model info nogui).2.1
          = env.wzmOfPie3
              (env.pie3OfPie2 (env.pie2Read (env.pieVersion (env.openStream file)).2).2) ∧
        (loadModel env file model info nogui).2.2.m_pieCaps
          = env.getCaps
              (env.pie3OfPie2 (env.pie2Read (env.pieVersion (env.openStream file)).2).2))) ∧
    (3 ≤ (env.pieVersion (env.openStream file)).1 →
      (loadModel env file model info nogui).1
        = (env.pie3Read (env.pieVersion (env.openStream file)).2).1 ∧
      ((env.pie3Read (env.pieVersion (env.openStream file)).2).1 = true →
        (loadModel env file model info nogui).2.1
          = env.wzmOfPie3 (env.pie3Read (env.pieVersion (env.openStream file)).2).2 ∧
        (loadModel env file model info nogui).2.2.m_pieCaps
          = env.getCaps (env.pie3Read (env.pieVersion (env.openStream file)).2).2)) := by
  constructor
  · intro hv
    simp only [loadModel, hpie, hv, if_true]
    split <;> simp_all
  · intro hv
    have hv2 : ¬ (env.pieVersion (env.openStream file)).1 ≤ 2 := by omega
    simp only [loadModel, hpie, hv2, if_false]
    split <;> simp_all

/-- Witness of C7: the file "PIE 3.pie", whose text declares version 3. -/
theorem C7_loadModel_version_selection_witness :
    guessModelTypeFromFilename "PIE 3.pie".toList WMIT_FT_PIE = (true, WMIT_FT_PIE) ∧
    (3 : Int) ≤ ((sampleLoadEnv EnumClassBitset.empty).pieVersion
      ((sampleLoadEnv EnumClassBitset.empty).openStream "PIE 3.pie".toList)).1 ∧
    (loadModel (sampleLoadEnv EnumClassBitset.empty) "PIE 3.pie".toList 0
      (sampleInfo WMIT_FT_PIE) false).1 = true :=
  ⟨by decide, by decide,
    ((C7_loadModel_version_selection (sampleLoadEnv EnumClassBitset.empty) "PIE 3.pie".toList 0
      (sampleInfo WMIT_FT_PIE) false (by decide)).2 (by decide)).1⟩

/-- C8: when `loadModel` is called on a file classified as PIE and the read of the selected
model returns false, `loadModel` returns false, the output model is unchanged, and `info`
is unchanged except for `m_read_type` (so `m_pieCaps` keeps its value). -/
theorem C8_loadModel_failed_read_untouched {S W P2 P3 : Type} (env : LoadEnv S W P2 P3)
    (file : QString) (model : W) (info : ModelInfo) (nogui : Bool)
    (hpie : guessModelTypeFromFilename file WMIT_FT_PIE = (true, WMIT_FT_PIE))
    (hfail : if (env.pieVersion (env.openStream file)).1 ≤ 2
      then (env.pie2Read (env.pieVersion (env.openStream file)).2).1 = false
      else (env.pie3Read (env.pieVersion (env.openStream file)).2).1 = false) :
    loadModel env file model info nogui
      = (false, model, { info with m_read_type := WMIT_FT_PIE }) ∧
    (loadModel env file model info nogui).2.2.m_pieCaps = info.m_pieCaps := by
  by_cases hv : (env.pieVersion (env.openStream file)).1 ≤ 2
  · rw [if_pos hv] at hfail
    simp only [loadModel, hpie, hv, if_true, hfail, Bool.false_eq_true, if_false, and_self]
  · rw [if_neg hv] at hfail
    simp only [loadModel, hpie, hv, if_false, hfail, Bool.false_eq_true, and_self]

/-- Witness of C8: the text "PIE x.pie" has no integer after the signature, so the
version sniff fails, the PIE2 reader is selected and fails on the failed stream. -/
theorem C8_loadModel_failed_read_untouched_witness :
    loadModel (sampleLoadEnv EnumClassBitset.empty) "PIE x.pie".toList 7
      (sampleInfo WMIT_FT_OBJ) false
      = (false, 7, { sampleInfo WMIT_FT_OBJ with m_read_type := WMIT_FT_PIE }) :=
  (C8_loadModel_failed_read_untouched (sampleLoadEnv EnumClassBitset.empty)
    "PIE x.pie".toList 7 (sampleInfo WMIT_FT_OBJ) false (by decide) (by decide)).1

/-- C9: when the save type is PIE2, `saveModel` writes the `Pie2Model` downconverted from
the `Pie3Model` built from the WZM model; for every save type other than WZM, OBJ and PIE2
it writes that `Pie3Model` itself; both writes receive `info.m_pieCaps` as the capability
set (a non-null pointer, so never the written model's own set). -/
theorem C9_saveModel_conversion {O W P2 P3 : Type} (env : SaveEnv O W P2 P3) (model : W)
    (info : ModelInfo) :
    (info.m_save_type = WMIT_FT_PIE2 →
      saveModel env model info = (true, env.close
        (env.pie2Write (env.pie2OfPie3 (env.pie3OfWzm model))
          (env.openStream info.m_saveAsFile) (some info.m_pieCaps)))) ∧
    (info.m_save_type ≠ WMIT_FT_WZM → info.m_save_type ≠ WMIT_FT_OBJ →
      info.m_save_type ≠ WMIT_FT_PIE2 →
      saveModel env model info = (true, env.close
        (env.pie3Write (env.pie3OfWzm model)
          (env.openStream info.m_saveAsFile) (some info.m_pieCaps)))) := by
  constructor
  · intro h
    simp only [saveModel, h, if_true]
  · intro h1 h2 h3
    cases hst : info.m_save_type <;> simp_all [saveModel]

/-- Witness of C9: saving the model 1 as PIE2 writes the model 6 (1 converted twice)
with the capability set of the model info. -/
theorem C9_saveModel_conversion_witness :
    saveModel sampleSaveEnv 1 (sampleInfo WMIT_FT_PIE2)
      = (true, [("pie2", 6, some EnumClassBitset.empty)]) :=
  (C9_saveModel_conversion sampleSaveEnv 1 (sampleInfo WMIT_FT_PIE2)).1 rfl

/-! ## Capability-set operations: verified properties -/

theorem get_value_injective (d d' : PIE_OPT_DIRECTIVES) (h : get_value d = get_value d') :
    d = d' := by
  cases d <;> cases d' <;> first | rfl | (exact absurd h (by decide))

theorem EnumClassBitset.test_eq_bit (c : EnumClassBitset) (d : PIE_OPT_DIRECTIVES)
    (hd : d ≠ pod_MAXVAL) :
    c.test d = .ok (c.c.bit ⟨get_value d, get_value_lt_of_named d hd⟩) := by
  simp only [EnumClassBitset.test, StdBitset.test, dif_pos (get_value_lt_of_named d hd)]

theorem EnumClassBitset.test_uncheckedSet (c : EnumClassBitset) (d d' : PIE_OPT_DIRECTIVES)
    (hd' : d' ≠ pod_MAXVAL) (v : Bool) :
    EnumClassBitset.test ⟨c.c.uncheckedSet (get_value d) v⟩ d'
      = if d' = d then .ok v else c.test d' := by
  rw [EnumClassBitset.test_eq_bit _ d' hd', EnumClassBitset.test_eq_bit c d' hd']
  simp only [StdBitset.uncheckedSet]
  by_cases h : d' = d
  · subst h
    simp
  · have hne : get_value d' ≠ get_value d := fun e => h (get_value_injective _ _ e)
    simp [h, hne]

theorem EnumClassBitset.set_eq (c : EnumClassBitset) (d : PIE_OPT_DIRECTIVES)
    (hd : d ≠ pod_MAXVAL) (v : Bool) :
    c.set d v = .ok ⟨c.c.uncheckedSet (get_value d) v⟩ := by
  simp only [EnumClassBitset.set, StdBitset.set, if_pos (get_value_lt_of_named d hd)]

theorem EnumClassBitset.reset_eq (c : EnumClassBitset) (d : PIE_OPT_DIRECTIVES)
    (hd : d ≠ pod_MAXVAL) :
    c.reset d = .ok ⟨c.c.uncheckedSet (get_value d) false⟩ := by
  simp only [EnumClassBitset.reset, StdBitset.reset, if_pos (get_value_lt_of_named d hd)]

theorem EnumClassBitset.flip_eq (c : EnumClassBitset) (d : PIE_OPT_DIRECTIVES)
    (hd : d ≠ pod_MAXVAL) :
    c.flip d = .ok ⟨c.c.uncheckedSet (get_value d)
      (!c.c.bit ⟨get_value d, get_value_lt_of_named d hd⟩)⟩ := by
  simp only [EnumClassBitset.flip, StdBitset.flip, dif_pos (get_value_lt_of_named d hd)]

/-- C11: after `c.set(d, v)` on a named directive, `test(d)` is `v` and `test(d')` is
unchanged for every other named directive; `set(d)` without a value is `set(d, true)`. -/
theorem C11_set_then_test (c : EnumClassBitset) (d : PIE_OPT_DIRECTIVES) (v : Bool)
    (hd : d ≠ pod_MAXVAL) :
    (∃ c1, c.set d v = .ok c1 ∧ c1.test d = .ok v ∧
      ∀ d1, d1 ≠ pod_MAXVAL → d1 ≠ d → c1.test d1 = c.test d1) ∧
    c.set d = c.set d true := by
  refine ⟨⟨_, EnumClassBitset.set_eq c d hd v, ?_, ?_⟩, rfl⟩
  · rw [EnumClassBitset.test_uncheckedSet c d d hd v, if_pos rfl]
  · intro d1 hd1 hne
    rw [EnumClassBitset.test_uncheckedSet c d d1 hd1 v, if_neg hne]

/-- Witness of C11: setting EVENT to false in the empty set. -/
theorem C11_set_then_test_witness :
    podEVENT ≠ pod_MAXVAL ∧
    ∃ c1, EnumClassBitset.empty.set podEVENT false = .ok c1 ∧ c1.test podEVENT = .ok false ∧
      ∀ d1, d1 ≠ pod_MAXVAL → d1 ≠ podEVENT → c1.test d1 = EnumClassBitset.empty.test d1 :=
  ⟨by decide, (C11_set_then_test EnumClassBitset.empty podEVENT false (by decide)).1⟩

/-- C12: `reset()` clears every named directive and yields the default-constructed set;
`reset(d)` on a named directive has the effect of `set(d, false)`: `test(d)` is false and
every other named directive keeps its value. -/
theorem C12_reset_clears (c : EnumClassBitset) (d : PIE_OPT_DIRECTIVES)
    (hd : d ≠ pod_MAXVAL) :
    c.resetAll = EnumClassBitset.empty ∧ c.resetAll.test d = .ok false ∧
    c.reset d = c.set d false ∧
    ∃ c1, c.reset d = .ok c1 ∧ c1.test d = .ok false ∧
      ∀ d1, d1 ≠ pod_MAXVAL → d1 ≠ d → c1.test d1 = c.test d1 := by
  refine ⟨rfl, ?_, ?_, _, EnumClassBitset.reset_eq c d hd, ?_, ?_⟩
  · rw [EnumClassBitset.test_eq_bit _ d hd]
    rfl
  · rw [EnumClassBitset.reset_eq c d hd, EnumClassBitset.set_eq c d hd]
  · rw [EnumClassBitset.test_uncheckedSet c d d hd false, if_pos rfl]
  · intro d1 hd1 hne
    rw [EnumClassBitset.test_uncheckedSet c d d1 hd1 false, if_neg hne]

/-- Witness of C12: resetting CONNECTORS in the set that holds CONNECTORS only. -/
theorem C12_reset_clears_witness :
    podCONNECTORS ≠ pod_MAXVAL ∧
    EnumClassBitset.reset ⟨StdBitset.zero.uncheckedSet 6 true⟩ podCONNECTORS
      = EnumClassBitset.set ⟨StdBitset.zero.uncheckedSet 6 true⟩ podCONNECTORS false ∧
    ∃ c1, EnumClassBitset.reset ⟨StdBitset.zero.uncheckedSet 6 true⟩ podCONNECTORS = .ok c1 ∧
      c1.test podCONNECTORS = .ok false ∧
      ∀ d1, d1 ≠ pod_MAXVAL → d1 ≠ podCONNECTORS →
        c1.test d1 = EnumClassBitset.test ⟨StdBitset.zero.uncheckedSet 6 true⟩ d1 :=
  ⟨by decide,
    (C12_reset_clears ⟨StdBitset.zero.uncheckedSet 6 true⟩ podCONNECTORS (by decide)).2.2⟩

/-- C13: `flip(d)` on a named directive negates `test(d)`, leaves every other named
directive unchanged, and applied twice gives back the set it started from. -/
theorem C13_flip_involution (c : EnumClassBitset) (d : PIE_OPT_DIRECTIVES)
    (hd : d ≠ pod_MAXVAL) :
    ∃ b c1, c.test d = .ok b ∧ c.flip d = .ok c1 ∧ c1.test d = .ok (!b) ∧
      (∀ d1, d1 ≠ pod_MAXVAL → d1 ≠ d → c1.test d1 = c.test d1) ∧
      c1.flip d = .ok c := by
  refine ⟨_, _, EnumClassBitset.test_eq_bit c d hd, EnumClassBitset.flip_eq c d hd, ?_, ?_, ?_⟩
  · rw [EnumClassBitset.test_uncheckedSet c d d hd, if_pos rfl]
  · intro d1 hd1 hne
    rw [EnumClassBitset.test_uncheckedSet c d d1 hd1, if_neg hne]
  · rw [EnumClassBitset.flip_eq _ d hd]
    congr 1
    obtain ⟨⟨bit⟩⟩ := c
    simp only [StdBitset.uncheckedSet, if_true, Bool.not_not]
    congr 2
    funext j
    by_cases hj : j.val = get_value d
    · rw [if_pos hj]
      congr 1
      exact Fin.ext hj.symm
    · simp only [if_neg hj]

/-- Witness of C13: flipping SHADERS in the empty set. -/
theorem C13_flip_involution_witness :
    podSHADERS ≠ pod_MAXVAL ∧
    ∃ b c1, EnumClassBitset.empty.test podSHADERS = .ok b ∧
      EnumClassBitset.empty.flip podSHADERS = .ok c1 ∧ c1.test podSHADERS = .ok (!b) ∧
      (∀ d1, d1 ≠ pod_MAXVAL → d1 ≠ podSHADERS →
        c1.test d1 = EnumClassBitset.empty.test d1) ∧
      c1.flip podSHADERS = .ok EnumClassBitset.empty :=
  ⟨by decide, C13_flip_involution EnumClassBitset.empty podSHADERS (by decide)⟩

/-- C14: every capability set has size 8, the numeric value of the sentinel `pod_MAXVAL`,
also the sets returned by the string constructor, `set`, `reset` and `flip`; the eight
named directives take the indices 0..7 in the order of the enumeration, injectively. -/
theorem C14_size_fixed_and_indices :
    (∀ c : EnumClassBitset, c.size = 8 ∧ c.size = get_value pod_MAXVAL ∧
      c.resetAll.size = 8) ∧
    (∀ (str : String) (c : EnumClassBitset), EnumClassBitset.ofString str = .ok c → c.size = 8) ∧
    (∀ (c c1 : EnumClassBitset) (d : PIE_OPT_DIRECTIVES) (v : Bool),
      (c.set d v = .ok c1 ∨ c.reset d = .ok c1 ∨ c.flip d = .ok c1) → c1.size = 8) ∧
    namedDirectives.map get_value = [0, 1, 2, 3, 4, 5, 6, 7] ∧
    Function.Injective get_value := by
  refine ⟨fun _ => ⟨rfl, rfl, rfl⟩, fun _ _ _ => rfl, fun _ _ _ _ _ => rfl, rfl, ?_⟩
  intro d d1 h
  exact get_value_injective d d1 h

/-- C17: the maximum sets of the two versions hold the same named directives, namely
NORMALMAP, SPECULARMAP, EVENT, SHADERS, CONNECTORS and ANIMOBJECT; MATERIALS and NORMALS
are the only named directives absent. -/
theorem C17_max_caps_identical :
    ∃ c2 c3, PIE2_CAPS = .ok c2 ∧ PIE3_CAPS = .ok c3 ∧
      ∀ d, d ≠ pod_MAXVAL →
        c2.test d = c3.test d ∧
        (c2.test d = .ok true ↔ d ∈ [podNORMALMAP, podSPECULARMAP, podEVENT, podSHADERS,
          podCONNECTORS, podANIMOBJECT]) ∧
        (c2.test d = .ok false ↔ d = podMATERIALS ∨ d = podNORMALS) := by
  have hall : (("11010111".toList.take (min 8 "11010111".toList.length)).all
      fun c => c = '0' || c = '1') = true := by decide
  refine ⟨⟨StdBitset.copyFrom "11010111".toList 8 8 StdBitset.zero⟩,
    ⟨StdBitset.copyFrom "11010111".toList 8 8 StdBitset.zero⟩, ?_, ?_, ?_⟩
  · simp only [PIE2_CAPS, EnumClassBitset.ofString, StdBitset.ofString, hall, if_true]
    rfl
  · simp only [PIE3_CAPS, EnumClassBitset.ofString, StdBitset.ofString, hall, if_true]
    rfl
  · intro d hd
    cases d <;> first | exact absurd rfl hd | decide

/-- C20: on each of the eight named directives `test`, `set`, `reset` and `flip` return
normally; with the sentinel `pod_MAXVAL`, whose index is `size()`, each of them throws
`out_of_range`. -/
theorem C20_named_directives_in_range (c : EnumClassBitset) (d : PIE_OPT_DIRECTIVES)
    (v : Bool) (hd : d ≠ pod_MAXVAL) :
    ((∃ b, c.test d = .ok b) ∧ (∃ c1, c.set d v = .ok c1) ∧ (∃ c1, c.reset d = .ok c1) ∧
      (∃ c1, c.flip d = .ok c1)) ∧
    get_value d < c.size ∧ get_value pod_MAXVAL = c.size ∧
    c.test pod_MAXVAL = .error .out_of_range ∧ c.set pod_MAXVAL v = .error .out_of_range ∧
    c.reset pod_MAXVAL = .error .out_of_range ∧ c.flip pod_MAXVAL = .error .out_of_range := by
  refine ⟨⟨⟨_, EnumClassBitset.test_eq_bit c d hd⟩, ⟨_, EnumClassBitset.set_eq c d hd v⟩,
    ⟨_, EnumClassBitset.reset_eq c d hd⟩, ⟨_, EnumClassBitset.flip_eq c d hd⟩⟩,
    get_value_lt_of_named d hd, rfl, rfl, rfl, rfl, rfl⟩

/-- Witness of C20: the directive ANIMOBJECT, of index 7, in the empty set. -/
theorem C20_named_directives_in_range_witness :
    podANIMOBJECT ≠ pod_MAXVAL ∧
    get_value podANIMOBJECT < EnumClassBitset.empty.size ∧
    EnumClassBitset.empty.test pod_MAXVAL = .error .out_of_range :=
  ⟨by decide,
    (C20_named_directives_in_range EnumClassBitset.empty podANIMOBJECT true (by decide)).2.1,
    (C20_named_directives_in_range EnumClassBitset.empty podANIMOBJECT true
      (by decide)).2.2.2.1⟩

/-! ## File-name classification: verified properties -/

theorem takeWhile_append_of_all {α : Type} (p : α → Bool) (l m : List α)
    (hl : ∀ x ∈ l, p x = true) : (l ++ m).takeWhile p = l ++ m.takeWhile p := by
  induction l with
  | nil => rfl
  | cons a l ih =>
    have ha : p a = true := hl a (List.mem_cons_self a l)
    rw [List.cons_append, List.takeWhile_cons, ha, if_pos rfl,
      ih (fun x hx => hl x (List.mem_cons_of_mem a hx)), List.cons_append]

theorem takeWhile_append_of_exists {α : Type} (p : α → Bool) (l m : List α)
    (hl : ∃ x ∈ l, p x = false) : (l ++ m).takeWhile p = l.takeWhile p := by
  induction l with
  | nil =>
    obtain ⟨x, hx, _⟩ := hl
    cases hx
  | cons a l ih =>
    rw [List.cons_append, List.takeWhile_cons, List.takeWhile_cons]
    cases ha : p a
    · simp
    · obtain ⟨x, hx, hpx⟩ := hl
      rcases List.mem_cons.mp hx with rfl | hxl
      · rw [ha] at hpx; cases hpx
      · simp only [if_true]
        rw [ih ⟨x, hxl, hpx⟩]

theorem textAfterLastDot_cons (c : Char) (cs : List Char) :
    textAfterLastDot (c :: cs) =
      if '.' ∈ cs then textAfterLastDot cs else if c = '.' then cs else c :: cs := by
  unfold textAfterLastDot
  rw [List.reverse_cons]
  by_cases hmem : '.' ∈ cs
  · rw [if_pos hmem, takeWhile_append_of_exists]
    exact ⟨'.', List.mem_reverse.mpr hmem, by decide⟩
  · rw [if_neg hmem, takeWhile_append_of_all]
    · by_cases hc : c = '.'
      · subst hc
        rw [if_pos rfl, List.takeWhile_cons, if_neg (by decide), List.append_nil,
          List.reverse_reverse]
      · have hp : (decide (c ≠ '.')) = true := decide_eq_true hc
        rw [if_neg hc, List.takeWhile_cons, hp, if_pos rfl, List.takeWhile_nil,
          List.reverse_append, List.reverse_reverse]
        rfl
    · intro x hx
      have hx2 : x ∈ cs := List.mem_reverse.mp hx
      exact decide_eq_true (fun e => hmem (e ▸ hx2))

theorem textAfterLastDot_suffix (l : List Char) :
    ∃ pre, l = pre ++ textAfterLastDot l := by
  refine ⟨(l.reverse.dropWhile (fun c => c ≠ '.')).reverse, ?_⟩
  unfold textAfterLastDot
  rw [← List.reverse_append, List.takeWhile_append_dropWhile, List.reverse_reverse]

theorem textAfterLastDot_of_not_mem (l : List Char) (h : '.' ∉ l) :
    textAfterLastDot l = l := by
  induction l with
  | nil => rfl
  | cons c cs ih =>
    have hcs : '.' ∉ cs := fun hm => h (List.mem_cons_of_mem c hm)
    have hc : ¬ c = '.' := fun e => h (e ▸ List.mem_cons_self c cs)
    rw [textAfterLastDot_cons, if_neg hcs, if_neg hc]

theorem QString.lastIndexOfFrom_dot (l : List Char) (i : Nat) (acc : Int) :
    QString.lastIndexOfFrom '.' l i acc =
      if '.' ∈ l then (i : Int) + (l.length : Int) - 1 - ((textAfterLastDot l).length : Int)
      else acc := by
  induction l generalizing i acc with
  | nil => simp [QString.lastIndexOfFrom]
  | cons c cs ih =>
    rw [QString.lastIndexOfFrom, ih, textAfterLastDot_cons]
    by_cases hmem : '.' ∈ cs
    · rw [if_pos hmem, if_pos hmem, if_pos (List.mem_cons_of_mem c hmem)]
      simp only [List.length_cons]
      push_cast
      omega
    · rw [if_neg hmem, if_neg hmem]
      by_cases hc : c = '.'
      · subst hc
        rw [if_pos rfl, if_pos rfl, if_pos (List.mem_cons_self _ _)]
        simp only [List.length_cons]
        push_cast
        omega
      · rw [if_neg hc, if_neg hc, if_neg]
        intro hm
        rcases List.mem_cons.mp hm with e | e
        · exact hc e.symm
        · exact hmem e

theorem QString.right_lastIndexOf_dot (fname : QString) :
    QString.right fname (QString.size fname - QString.lastIndexOf fname '.' - 1)
      = textAfterLastDot fname := by
  unfold QString.lastIndexOf
  rw [QString.lastIndexOfFrom_dot]
  by_cases hmem : '.' ∈ fname
  · rw [if_pos hmem]
    obtain ⟨pre, hpre⟩ := textAfterLastDot_suffix fname
    have hlen : fname.length = pre.length + (textAfterLastDot fname).length := by
      conv_lhs => rw [hpre]
      exact List.length_append _ _
    have hn : QString.size fname - ((0 : Nat) + (fname.length : Int) - 1
        - ((textAfterLastDot fname).length : Int)) - 1
        = ((textAfterLastDot fname).length : Int) := by
      simp only [QString.size]
      push_cast
      omega
    rw [hn]
    unfold QString.right
    by_cases hge : ((textAfterLastDot fname).length : Int) < 0 ∨
        ((textAfterLastDot fname).length : Int) ≥ QString.size fname
    · rw [if_pos hge]
      have hp0 : pre.length = 0 := by
        simp only [QString.size] at hge
        omega
      have hpn : pre = [] := List.length_eq_zero.mp hp0
      rw [hpn, List.nil_append] at hpre
      exact hpre
    · rw [if_neg hge, Int.toNat_ofNat]
      have hd : fname.length - (textAfterLastDot fname).length = pre.length := by omega
      rw [hd]
      conv_lhs => rw [hpre]
      exact List.drop_left' rfl
  · rw [if_neg hmem, textAfterLastDot_of_not_mem fname hmem]
    unfold QString.right
    rw [if_pos]
    right
    simp only [QString.size]
    omega

theorem guessModelTypeFromFilename_eq (fname : QString) (type : wmit_filetype_t) :
    guessModelTypeFromFilename fname type =
      if (textAfterLastDot fname).map Char.toLower = "wzm".toList then (true, WMIT_FT_WZM)
      else if (textAfterLastDot fname).map Char.toLower = "obj".toList then (true, WMIT_FT_OBJ)
      else if (textAfterLastDot fname).map Char.toLower = "pie".toList then (true, WMIT_FT_PIE)
      else (false, type) := by
  have hw : "wzm".toList.map Char.toLower = "wzm".toList := by decide
  have ho : "obj".toList.map Char.toLower = "obj".toList := by decide
  have hp : "pie".toList.map Char.toLower = "pie".toList := by decide
  simp only [guessModelTypeFromFilename, QString.right_lastIndexOf_dot,
    QString.compareCaseInsensitiveEq, hw, ho, hp, beq_iff_eq]

/-- C18: `guessModelTypeFromFilename` classifies by the text after the last '.' of the
file name (the whole name when there is no '.'), compared without regard to case: it
returns true with WZM, OBJ or PIE exactly when that text is "wzm", "obj" or "pie", in every
other case it returns false and leaves the type argument as it was, and it never returns
true with PIE2. -/
theorem C18_guessModelType_by_extension (fname : QString) (type : wmit_filetype_t) :
    (guessModelTypeFromFilename fname type = (true, WMIT_FT_WZM) ↔
      (textAfterLastDot fname).map Char.toLower = "wzm".toList) ∧
    (guessModelTypeFromFilename fname type = (true, WMIT_FT_OBJ) ↔
      (textAfterLastDot fname).map Char.toLower = "obj".toList) ∧
    (guessModelTypeFromFilename fname type = (true, WMIT_FT_PIE) ↔
      (textAfterLastDot fname).map Char.toLower = "pie".toList) ∧
    (((textAfterLastDot fname).map Char.toLower ≠ "wzm".toList ∧
      (textAfterLastDot fname).map Char.toLower ≠ "obj".toList ∧
      (textAfterLastDot fname).map Char.toLower ≠ "pie".toList) ↔
      guessModelTypeFromFilename fname type = (false, type)) ∧
    guessModelTypeFromFilename fname type ≠ (true, WMIT_FT_PIE2) := by
  rw [guessModelTypeFromFilename_eq]
  have h1 : "wzm".toList ≠ "obj".toList := by decide
  have h2 : "wzm".toList ≠ "pie".toList := by decide
  have h3 : "obj".toList ≠ "pie".toList := by decide
  generalize (textAfterLastDot fname).map Char.toLower = e
  generalize "wzm".toList = W at h1 h2 ⊢
  generalize "obj".toList = O at h1 h3 ⊢
  generalize "pie".toList = P at h2 h3 ⊢
  by_cases hw : e = W
  · subst hw
    simp [h1, h2]
  · by_cases ho : e = O
    · subst ho
      simp [h1.symm, h3]
    · by_cases hp : e = P
      · subst hp
        simp [h2.symm, h3.symm]
      · simp [hw, ho, hp]

/-- Witness of C18: the name "tank.v2.PIE" is classified as PIE. -/
theorem C18_guessModelType_by_extension_witness :
    guessModelTypeFromFilename "tank.v2.PIE".toList WMIT_FT_PIE2 = (true, WMIT_FT_PIE) :=
  (C18_guessModelType_by_extension "tank.v2.PIE".toList WMIT_FT_PIE2).2.2.1.mpr (by decide)

/-! ## Outcome of `saveModel`, `openFile` and `actionImport_Connectors` -/

/-- C15 as stated fails: with an output file that cannot be opened nothing is written and
the stream is not open, yet `saveModel` does not return false. -/
theorem C15_unopened_save_not_false :
    (saveModel unopenedSaveEnv 1 (sampleInfo WMIT_FT_PIE)).2 = (false, []) ∧
    (saveModel unopenedSaveEnv 1 (sampleInfo WMIT_FT_PIE)).1 ≠ false := by
  decide

/-- C15 (amended): the write members return no outcome (`void`: in `SaveEnv` they yield
the stream only), and `saveModel` returns true for every model and every model info,
whatever the output stream did. -/
theorem C15_saveModel_returns_true {O W P2 P3 : Type} (env : SaveEnv O W P2 P3) (model : W)
    (info : ModelInfo) :
    (saveModel env model info).1 = true := rfl

/-- C19: for a non-empty file path for which `loadModel` returns false, `openFile` leaves
the current model and the current model info as they were before the call. -/
theorem C19_openFile_atomic_on_failure {S W P2 P3 M U : Type} (env : WindowEnv S W P2 P3 M U)
    (mw : MainWindow W U) (filePath : QString) (hne : filePath ≠ [])
    (hfail : (loadModel env.load filePath env.newModel mw.m_modelinfo env.noguiDefault).1
      = false) :
    (MainWindow.openFile env mw filePath).2.m_model = mw.m_model ∧
    (MainWindow.openFile env mw filePath).2.m_modelinfo = mw.m_modelinfo := by
  have he : filePath.isEmpty = false := by
    cases filePath with
    | nil => exact absurd rfl hne
    | cons _ _ => rfl
  simp only [MainWindow.openFile, he, hfail, Bool.false_eq_true, if_false, and_self]

/-- Witness of C19: the file "x.pie" fails to load in the sample environment. -/
theorem C19_openFile_atomic_on_failure_witness :
    "x.pie".toList ≠ [] ∧
    (MainWindow.openFile (sampleWindowEnv []) sampleWindow "x.pie".toList).2.m_model
      = sampleWindow.m_model :=
  ⟨by decide,
    (C19_openFile_atomic_on_failure (sampleWindowEnv []) sampleWindow "x.pie".toList
      (by decide) (by decide)).1⟩

theorem importConnectorsStep_in_range {W M : Type} (env : MeshEnv W M) (replyYes : Bool)
    (newmodel : W) (hset : ∀ w i m, env.meshes (env.setMesh w i m) = env.meshes w)
    (i : Int) (st : ImportLoopState W) (h1 : 0 ≤ i ∧ i < env.meshes newmodel)
    (h2 : 0 ≤ i ∧ i < env.meshes st.model) :
    ∃ st1, importConnectorsStep env replyYes newmodel i st = .ok st1 ∧
      env.meshes st1.model = env.meshes st.model := by
  obtain ⟨model, ask, rep⟩ := st
  simp only at h2
  unfold importConnectorsStep
  rw [if_neg (not_not.mpr h1)]
  by_cases hc : env.connectors (env.getMesh newmodel i) = 0
  · simp only [hc, if_true]
    exact ⟨_, rfl, rfl⟩
  · simp only [hc, if_false, if_neg (not_not.mpr h2)]
    by_cases ht : env.connectors (env.getMesh model i) = 0
    · simp only [ht, ne_eq, not_true_eq_false, if_false]
      exact ⟨_, rfl, by rw [hset]⟩
    · simp only [ne_eq, ht, not_false_eq_true, if_true]
      cases ask <;> cases rep <;> cases replyYes <;>
        simp only [Bool.false_eq_true, if_false, if_true, Bool.not_true, Bool.not_false] <;>
        first
          | exact ⟨_, rfl, rfl⟩
          | exact ⟨_, rfl, by rw [hset]⟩

theorem importConnectorsLoop_in_range {W M : Type} (env : MeshEnv W M) (replyYes : Bool)
    (newmodel : W) (hset : ∀ w i m, env.meshes (env.setMesh w i m) = env.meshes w)
    (l : List Nat) (st : ImportLoopState W)
    (hl : ∀ i ∈ l, (i : Int) < env.meshes newmodel ∧ (i : Int) < env.meshes st.model) :
    ∃ st1, importConnectorsLoop env replyYes newmodel l st = .ok st1 ∧
      env.meshes st1.model = env.meshes st.model := by
  induction l generalizing st with
  | nil => exact ⟨st, rfl, rfl⟩
  | cons i tl ih =>
    have hi := hl i (List.mem_cons_self i tl)
    obtain ⟨st1, h1, hm1⟩ := importConnectorsStep_in_range env replyYes newmodel hset (i : Int) st
      ⟨Int.ofNat_nonneg i, hi.1⟩ ⟨Int.ofNat_nonneg i, hi.2⟩
    obtain ⟨st2, h2, hm2⟩ := ih st1 (fun j hj => by
      rw [hm1]
      exact hl j (List.mem_cons_of_mem i hj))
    refine ⟨st2, ?_, by rw [hm2, hm1]⟩
    simp only [importConnectorsLoop, h1, h2]

theorem importConnectorsLoop_append {W M : Type} (env : MeshEnv W M) (replyYes : Bool)
    (newmodel : W) (l1 l2 : List Nat) (st st1 : ImportLoopState W)
    (h : importConnectorsLoop env replyYes newmodel l1 st = .ok st1) :
    importConnectorsLoop env replyYes newmodel (l1 ++ l2) st
      = importConnectorsLoop env replyYes newmodel l2 st1 := by
  induction l1 generalizing st with
  | nil =>
    simp only [importConnectorsLoop] at h
    rw [List.nil_append, Except.ok.inj h]
  | cons i tl ih =>
    simp only [importConnectorsLoop, List.cons_append] at h ⊢
    cases hs : importConnectorsStep env replyYes newmodel (i : Int) st with
    | error e => rw [hs] at h; cases h
    | ok st2 =>
      rw [hs] at h
      exact ih st2 h

/-- Whenever the model loaded by `actionImport_Connectors` has fewer meshes than the
current model, the loop calls `newmodel.getMesh(i)` with `i = newmodel.meshes()` and the
call does not return. -/
theorem MainWindow.actionImport_Connectors_fewer_meshes {S W P2 P3 M U : Type}
    (env : WindowEnv S W P2 P3 M U) (mw : MainWindow W U)
    (hset : ∀ w i m, env.mesh.meshes (env.mesh.setMesh w i m) = env.mesh.meshes w)
    (hp : env.conn_path ≠ [])
    (hl : (loadModel env.load env.conn_path env.newModel env.newInfo env.noguiDefault).1 = true)
    (hn : 0 ≤ env.mesh.meshes
      (loadModel env.load env.conn_path env.newModel env.newInfo env.noguiDefault).2.1)
    (hlt : env.mesh.meshes
      (loadModel env.load env.conn_path env.newModel env.newInfo env.noguiDefault).2.1
        < env.mesh.meshes mw.m_model) :
    MainWindow.actionImport_Connectors env mw = .error (.newmodelIndex (env.mesh.meshes
      (loadModel env.load env.conn_path env.newModel env.newInfo env.noguiDefault).2.1)) := by
  have hpe : env.conn_path.isEmpty = false := by
    cases hcp : env.conn_path with
    | nil => exact absurd hcp hp
    | cons _ _ => rfl
  have h0 : ¬ env.mesh.meshes mw.m_model = 0 := by omega
  generalize hnm : (loadModel env.load env.conn_path env.newModel env.newInfo
    env.noguiDefault).2.1 = newmodel at hn hlt
  obtain ⟨a, ha⟩ : ∃ a : Nat, env.mesh.meshes newmodel = (a : Int) :=
    ⟨(env.mesh.meshes newmodel).toNat, by omega⟩
  obtain ⟨k, hk⟩ : ∃ k : Nat, (max (env.mesh.meshes newmodel) (env.mesh.meshes mw.m_model)).toNat
      = a + (k + 1) :=
    ⟨(env.mesh.meshes mw.m_model).toNat - a - 1, by omega⟩
  have hrange : List.range (a + (k + 1))
      = List.range a ++ a :: (List.range k).map (fun x => a + (x + 1)) := by
    rw [List.range_add, List.range_succ_eq_map, List.map_cons, List.map_map]
    rfl
  obtain ⟨st1, hst1, -⟩ := importConnectorsLoop_in_range env.mesh env.replyYes newmodel hset
    (List.range a) ⟨mw.m_model, true, false⟩ (fun i hi => by
      have := List.mem_range.mp hi
      simp only
      omega)
  have hstep : importConnectorsStep env.mesh env.replyYes newmodel (a : Int) st1
      = .error (.newmodelIndex (a : Int)) := by
    unfold importConnectorsStep
    rw [if_pos]
    omega
  unfold MainWindow.actionImport_Connectors
  simp only [if_neg h0, hpe, Bool.false_eq_true, if_false, hl, Bool.not_true, hnm, hk, hrange]
  rw [importConnectorsLoop_append env.mesh env.replyYes newmodel _ _ _ st1 hst1]
  simp only [importConnectorsLoop, hstep, ha]

/-- C21 fails on the code: the current model has two meshes and the file "1.wzm" loads as
a model of one mesh; the loop runs up to the larger count and calls `newmodel.getMesh(1)`
although `newmodel.meshes()` is 1, so the call does not return. With "001.wzm", three
meshes of which the third has a connector, it calls `m_model->getMesh(2)` although
`m_model->meshes()` is 2. -/
theorem C21_getMesh_index_outside_newmodel :
    (loadModel (sampleWindowEnv "1.wzm".toList).load "1.wzm".toList [] (sampleInfo WMIT_FT_PIE)
      false).1 = true ∧
    sampleMeshEnv.meshes (loadModel (sampleWindowEnv "1.wzm".toList).load "1.wzm".toList []
      (sampleInfo WMIT_FT_PIE) false).2.1 = 1 ∧
    sampleMeshEnv.meshes sampleWindow.m_model = 2 ∧
    MainWindow.actionImport_Connectors (sampleWindowEnv "1.wzm".toList) sampleWindow
      = .error (.newmodelIndex 1) ∧
    MainWindow.actionImport_Connectors (sampleWindowEnv "001.wzm".toList) sampleWindow
      = .error (.modelIndex 2) := by
  refine ⟨by decide, by decide, by decide, rfl, rfl⟩

/-! ## The recent-files list: verified properties -/

/-- C23: the list stored by `PrependFileToRecentList` is the first 10 entries of the
absolute path p followed by the old list without p; so p is its first entry and occurs
exactly once, its length is at most 10, and the other entries are entries of the old list
in their old order. -/
theorem C23_prepend_recent_list (absoluteFilePath : QString → QString) (L : QStringList)
    (filename : QString) :
    PrependFileToRecentList absoluteFilePath L filename
      = (absoluteFilePath filename :: L.filter (fun x => x ≠ absoluteFilePath filename)).take 10 ∧
    (PrependFileToRecentList absoluteFilePath L filename).head? = some (absoluteFilePath filename) ∧
    (PrependFileToRecentList absoluteFilePath L filename).count (absoluteFilePath filename) = 1 ∧
    (PrependFileToRecentList absoluteFilePath L filename).length ≤ 10 ∧
    (PrependFileToRecentList absoluteFilePath L filename).tail.Sublist L := by
  have hR : PrependFileToRecentList absoluteFilePath L filename
      = absoluteFilePath filename
          :: (L.filter (fun x => x ≠ absoluteFilePath filename)).take 9 := by
    simp only [PrependFileToRecentList, QStringList.removeAll, QStringList.prepend,
      QStringList.mid, List.drop_zero]
    rfl
  refine ⟨?_, ?_, ?_, ?_, ?_⟩
  · rw [hR]; rfl
  · rw [hR]; rfl
  · rw [hR, List.count_cons_self, List.count_eq_zero_of_not_mem]
    intro hmem
    have h2 := List.mem_of_mem_take hmem
    have h3 := (List.mem_filter.mp h2).2
    simp at h3
  · rw [hR, List.length_cons]
    have := List.length_take_le 9 (L.filter (fun x => x ≠ absoluteFilePath filename))
    omega
  · rw [hR, List.tail_cons]
    exact (List.take_sublist _ _).trans (List.filter_sublist _)

theorem QStringList.mem_of_mem_removeDuplicatesFrom (seen : List QString) (l : QStringList)
    (x : QString) (h : x ∈ QStringList.removeDuplicatesFrom seen l) : x ∈ l := by
  induction l generalizing seen with
  | nil => simp [QStringList.removeDuplicatesFrom] at h
  | cons a tl ih =>
    simp only [QStringList.removeDuplicatesFrom] at h
    split at h
    · exact List.mem_cons_of_mem a (ih seen h)
    · rcases List.mem_cons.mp h with e | e
      · rw [e]; exact List.mem_cons_self a tl
      · exact List.mem_cons_of_mem a (ih (a :: seen) e)

theorem clearMissingLoop_all_exist (fileExists : QString → Bool) (l0 : QStringList)
    (hall : ∀ x ∈ l0, fileExists x = true) (ps : List Nat) (hps : ∀ i ∈ ps, i < l0.length) :
    clearMissingLoop fileExists ps ⟨l0, l0.length, false⟩ = ⟨l0, l0.length, false⟩ := by
  induction ps with
  | nil => rfl
  | cons i tl ih =>
    have hi : i < l0.length := hps i (List.mem_cons_self i tl)
    have hget : l0.getD i [] = l0[i] := by
      simp [List.getD, List.getElem?_eq_getElem hi]
    have hex : fileExists (l0.getD i []) = true := by
      rw [hget]; exact hall _ (List.getElem_mem hi)
    have hle : decide (l0.length ≤ i) = false := decide_eq_false (by omega)
    simp only [clearMissingLoop, hex, hle, Bool.not_true, Bool.false_eq_true, if_false,
      Bool.or_false]
    exact ih (fun j hj => hps j (List.mem_cons_of_mem i hj))

/-- When every file of the stored list exists, `actionClearMissingFiles` stores the list
without its later duplicates and reads no slot behind the list. -/
theorem actionClearMissingFiles_all_exist (fileExists : QString → Bool) (L : QStringList)
    (hall : ∀ x ∈ L, fileExists x = true) :
    (actionClearMissingFiles fileExists L).stored = QStringList.removeDuplicates L ∧
    (actionClearMissingFiles fileExists L).readPastEnd = false := by
  have h := clearMissingLoop_all_exist fileExists (QStringList.removeDuplicates L)
    (fun x hx => hall x (QStringList.mem_of_mem_removeDuplicatesFrom [] L x hx))
    (List.range (QStringList.removeDuplicates L).length) (fun i hi => List.mem_range.mp hi)
  simp only [actionClearMissingFiles, h, IteratedList.stored, List.take_length, and_self]

/-- C24 fails on the code: with the stored list a, b, c of which only c exists, the pass
that removes a moves b into the slot just visited, the next pass visits c, and the list
stored afterwards is b, c: the missing file b remains (and the last pass reads a slot
behind the shortened list). -/
theorem C24_adjacent_missing_file_remains :
    (actionClearMissingFiles (fun f => f = "c".toList)
      ["a".toList, "b".toList, "c".toList]).stored = ["b".toList, "c".toList] ∧
    (fun f => decide (f = "c".toList)) "b".toList = false ∧
    (actionClearMissingFiles (fun f => f = "c".toList)
      ["a".toList, "b".toList, "c".toList]).readPastEnd = true := by
  decide

/-! ## "Save as" names and type guessing: verified properties -/

theorem not_mem_textAfterLastDot (l : List Char) : '.' ∉ textAfterLastDot l := by
  induction l with
  | nil => simp [textAfterLastDot]
  | cons c cs ih =>
    rw [textAfterLastDot_cons]
    by_cases hmem : '.' ∈ cs
    · rw [if_pos hmem]; exact ih
    · rw [if_neg hmem]
      by_cases hc : c = '.'
      · rw [if_pos hc]; exact hmem
      · rw [if_neg hc]
        intro h
        rcases List.mem_cons.mp h with e | e
        · exact hc e.symm
        · exact hmem e

theorem textAfterLastDot_append_of_mem (pre l : List Char) (h : '.' ∈ l) :
    textAfterLastDot (pre ++ l) = textAfterLastDot l := by
  induction pre with
  | nil => rfl
  | cons c tl ih =>
    rw [List.cons_append, textAfterLastDot_cons, if_pos (List.mem_append_right tl h), ih]

theorem textAfterLastDot_append_dot (l e : List Char) (h : '.' ∉ e) :
    textAfterLastDot (l ++ '.' :: e) = e := by
  induction l with
  | nil => rw [List.nil_append, textAfterLastDot_cons, if_neg h, if_pos rfl]
  | cons c tl ih =>
    rw [List.cons_append, textAfterLastDot_cons,
      if_pos (List.mem_append_right tl (List.mem_cons_self _ _)), ih]

theorem QFileInfo.suffix_eq (path : QString) :
    QFileInfo.suffix path =
      if '.' ∈ QFileInfo.fileName path then textAfterLastDot (QFileInfo.fileName path)
      else [] := by
  unfold QFileInfo.suffix
  generalize QFileInfo.fileName path = name
  simp only [QString.lastIndexOf]
  rw [QString.lastIndexOfFrom_dot]
  by_cases hmem : '.' ∈ name
  · rw [if_pos hmem, if_pos hmem]
    obtain ⟨pre, hpre⟩ := textAfterLastDot_suffix name
    have hlen : name.length = pre.length + (textAfterLastDot name).length := by
      conv_lhs => rw [hpre]
      exact List.length_append _ _
    have hpos : 0 < pre.length := by
      rcases Nat.eq_zero_or_pos pre.length with h0 | h0
      · exfalso
        have hpn : pre = [] := List.length_eq_zero.mp h0
        rw [hpn, List.nil_append] at hpre
        rw [hpre] at hmem
        exact not_mem_textAfterLastDot name hmem
      · exact h0
    have hdot : ((0 : Nat) : Int) + (name.length : Int) - 1
        - ((textAfterLastDot name).length : Int) = ((pre.length - 1 : Nat) : Int) := by
      omega
    rw [hdot, if_neg (by omega), Int.toNat_ofNat]
    have hk : pre.length - 1 + 1 = pre.length := by omega
    rw [hk]
    conv_lhs => rw [hpre]
    exact List.drop_left' rfl
  · rw [if_neg hmem, if_neg hmem, if_pos (by decide)]

theorem QFileInfo.fileName_suffix (path : QString) :
    ∃ pre, path = pre ++ QFileInfo.fileName path :=
  ⟨path.take (QString.lastIndexOf path '/' + 1).toNat, (List.take_append_drop _ _).symm⟩

/-- The name that the fix-up of `actionSaveAs` produces ends, after its last '.', in the
wanted extension up to case. -/
theorem fixSuffix_extension (selectedFile : QString) (ext : String)
    (hdot : '.' ∉ ext.toList) (hne : ext.toList ≠ [])
    (hlow : ext.toList.map Char.toLower = ext.toList) :
    (textAfterLastDot (fixSuffix selectedFile (QFileInfo.filePath selectedFile) ext)).map
      Char.toLower = ext.toList := by
  unfold fixSuffix QFileInfo.filePath
  by_cases h : QString.toLower (QFileInfo.suffix selectedFile) ≠ ext.toList
  · rw [if_pos h, textAfterLastDot_append_dot _ _ hdot, hlow]
  · rw [if_neg h]
    have heq : QString.toLower (QFileInfo.suffix selectedFile) = ext.toList := not_not.mp h
    rw [QFileInfo.suffix_eq] at heq
    by_cases hmem : '.' ∈ QFileInfo.fileName selectedFile
    · rw [if_pos hmem] at heq
      obtain ⟨pre, hpre⟩ := QFileInfo.fileName_suffix selectedFile
      have ht : textAfterLastDot selectedFile
          = textAfterLastDot (QFileInfo.fileName selectedFile) := by
        conv_lhs => rw [hpre]
        exact textAfterLastDot_append_of_mem pre _ hmem
      rw [ht]
      exact heq
    · rw [if_neg hmem] at heq
      exact absurd heq.symm hne

theorem MainWindow.actionSaveAs_stored {O W P2 P3 U : Type} (env : SaveAsEnv O W P2 P3 U)
    (mw : MainWindow W U) (recentFiles : QStringList)
    (hacc : env.dialogAccepted = true) (hfilter : env.selectedNameFilter ∈ saveAsFilters)
    (hexp : env.exportAccepted = true ∨
      selectedSaveType env.selectedNameFilter = WMIT_FT_WZM ∨
      selectedSaveType env.selectedNameFilter = WMIT_FT_OBJ) :
    (MainWindow.actionSaveAs env mw recentFiles).1.m_modelinfo.m_save_type
      = selectedSaveType env.selectedNameFilter ∧
    (MainWindow.actionSaveAs env mw recentFiles).1.m_modelinfo.m_saveAsFile
      = fixSuffix env.selectedFile (QFileInfo.filePath env.selectedFile)
          (suffixOfSaveType (selectedSaveType env.selectedNameFilter)) := by
  cases hty : selectedSaveType env.selectedNameFilter
  · rcases hexp with he | he | he
    · simp [MainWindow.actionSaveAs, hacc, hfilter, hty, he, suffixOfSaveType]
    · rw [hty] at he; cases he
    · rw [hty] at he; cases he
  · rcases hexp with he | he | he
    · simp [MainWindow.actionSaveAs, hacc, hfilter, hty, he, suffixOfSaveType]
    · rw [hty] at he; cases he
    · rw [hty] at he; cases he
  · simp [MainWindow.actionSaveAs, hacc, hfilter, hty, suffixOfSaveType]
  · simp [MainWindow.actionSaveAs, hacc, hfilter, hty, suffixOfSaveType]

theorem suffixOfSaveType_plain (ty : wmit_filetype_t) :
    '.' ∉ (suffixOfSaveType ty).toList ∧ (suffixOfSaveType ty).toList ≠ [] ∧
    (suffixOfSaveType ty).toList.map Char.toLower = (suffixOfSaveType ty).toList := by
  cases ty <;> decide

theorem guess_of_extension (fname : QString) (type0 ty : wmit_filetype_t)
    (h : (textAfterLastDot fname).map Char.toLower = (suffixOfSaveType ty).toList) :
    guessModelTypeFromFilename fname type0 = (true, readTypeOfSaveType ty) := by
  rw [guessModelTypeFromFilename_eq, h]
  cases ty
  · rw [if_neg (by decide), if_neg (by decide), if_pos (by decide)]; rfl
  · rw [if_neg (by decide), if_neg (by decide), if_pos (by decide)]; rfl
  · rw [if_pos (by decide)]; rfl
  · rw [if_neg (by decide), if_pos (by decide)]; rfl

theorem QString.lastIndexOfFrom_cases (ch : Char) (l : List Char) (i : Nat) (acc : Int) :
    (ch ∉ l ∧ QString.lastIndexOfFrom ch l i acc = acc) ∨
    ∃ k, k < l.length ∧ QString.lastIndexOfFrom ch l i acc = ((i + k : Nat) : Int) ∧
      l[k]? = some ch ∧ ch ∉ l.drop (k + 1) := by
  induction l generalizing i acc with
  | nil => exact Or.inl ⟨List.not_mem_nil ch, rfl⟩
  | cons c cs ih =>
    rw [QString.lastIndexOfFrom]
    rcases ih (i + 1) (if c = ch then (i : Int) else acc) with ⟨hmem, hres⟩ | ⟨k, hk, hres, hget, hrest⟩
    · by_cases hc : c = ch
      · right
        refine ⟨0, by simp, ?_, by simp [hc], by simpa using hmem⟩
        rw [hres, if_pos hc]
        rfl
      · left
        refine ⟨?_, by rw [hres, if_neg hc]⟩
        intro hm
        rcases List.mem_cons.mp hm with e | e
        · exact hc e.symm
        · exact hmem e
    · right
      refine ⟨k + 1, by simp; omega, ?_, by simpa using hget, by simpa using hrest⟩
      rw [hres]
      congr 1
      omega

theorem QFileInfo.fileName_of_suffix (path base suf : List Char) (h : path = base ++ suf)
    (hs : '/' ∉ suf) : ∃ x, QFileInfo.fileName path = x ++ suf := by
  unfold QFileInfo.fileName QString.lastIndexOf
  rcases QString.lastIndexOfFrom_cases '/' path 0 (-1) with ⟨-, hres⟩ | ⟨k, hk, hres, hget, -⟩
  · rw [hres]
    exact ⟨base, by simpa using h⟩
  · rw [hres]
    have hkb : k < base.length := by
      by_contra hge
      rw [h, List.getElem?_append_right (by omega)] at hget
      exact hs (List.getElem?_mem hget)
    refine ⟨base.drop (k + 1), ?_⟩
    have hn : (((0 + k : Nat) : Int) + 1).toNat = k + 1 := by omega
    rw [hn, h]
    exact List.drop_append_of_le_length (by omega)

theorem textAfterLastDot_decomp (l : List Char) (h : '.' ∈ l) :
    ∃ pre, l = pre ++ '.' :: textAfterLastDot l := by
  induction l with
  | nil => cases h
  | cons c cs ih =>
    rw [textAfterLastDot_cons]
    by_cases hmem : '.' ∈ cs
    · obtain ⟨pre, hpre⟩ := ih hmem
      rw [if_pos hmem]
      exact ⟨c :: pre, by rw [List.cons_append, ← hpre]⟩
    · have hc : c = '.' := by
        rcases List.mem_cons.mp h with e | e
        · exact e.symm
        · exact absurd e hmem
      rw [if_neg hmem, if_pos hc, hc]
      exact ⟨[], rfl⟩

theorem not_mem_of_map_toLower (ch : Char) (hch : ch.toLower = ch) (e ext : List Char)
    (he : e.map Char.toLower = ext) (hx : ch ∉ ext) : ch ∉ e := by
  intro hm
  have := List.mem_map_of_mem Char.toLower hm
  rw [he, hch] at this
  exact hx this

/-- The test of the fix-up of `actionSaveAs`, `finfo.suffix().toLower()` equal to the
wanted suffix, holds exactly when the chosen name ends in '.' and that suffix up to
case. -/
theorem suffix_toLower_iff_endsInSuffix (sel : QString) (ext : String)
    (hd : '.' ∉ ext.toList) (hs : '/' ∉ ext.toList) (hn : ext.toList ≠ []) :
    QString.toLower (QFileInfo.suffix sel) = ext.toList ↔ endsInSuffix sel ext := by
  constructor
  · intro heq
    rw [QFileInfo.suffix_eq] at heq
    by_cases hmem : '.' ∈ QFileInfo.fileName sel
    · rw [if_pos hmem] at heq
      obtain ⟨pre, hpre⟩ := QFileInfo.fileName_suffix sel
      obtain ⟨pre2, hpre2⟩ := textAfterLastDot_decomp _ hmem
      refine ⟨pre ++ pre2, textAfterLastDot (QFileInfo.fileName sel), ?_, heq⟩
      rw [List.append_assoc, ← hpre2]
      exact hpre
    · rw [if_neg hmem] at heq
      exact absurd heq.symm hn
  · rintro ⟨base, e, hsel, he⟩
    have hde : '.' ∉ e := not_mem_of_map_toLower '.' (by decide) e _ he hd
    have hse : '/' ∉ e := not_mem_of_map_toLower '/' (by decide) e _ he hs
    have hsuf : '/' ∉ '.' :: e := by
      intro hm
      rcases List.mem_cons.mp hm with h1 | h1
      · exact absurd h1 (by decide)
      · exact hse h1
    obtain ⟨x, hx⟩ := QFileInfo.fileName_of_suffix sel base ('.' :: e) hsel hsuf
    rw [QFileInfo.suffix_eq, hx,
      if_pos (List.mem_append_right x (List.mem_cons_self _ _)),
      textAfterLastDot_append_dot x e hde]
    exact he

theorem suffixOfSaveType_no_slash (ty : wmit_filetype_t) :
    '/' ∉ (suffixOfSaveType ty).toList := by
  cases ty <;> decide

/-- C22: when `actionSaveAs` stores a file name (the file dialog was accepted with one of
its filters and, for PIE and PIE2, the export dialog was accepted), the stored
`m_saveAsFile` is classified by `guessModelTypeFromFilename` as the format of the save type
(PIE for PIE and PIE2); a chosen name that already ends in '.' and the wanted suffix, up to
case, is stored unchanged, and every other chosen name is stored with '.' and the suffix
appended. -/
theorem C22_saveAs_name_guessed_as_saved {O W P2 P3 U : Type} (env : SaveAsEnv O W P2 P3 U)
    (mw : MainWindow W U) (recentFiles : QStringList) (type0 : wmit_filetype_t)
    (hacc : env.dialogAccepted = true) (hfilter : env.selectedNameFilter ∈ saveAsFilters)
    (hexp : env.exportAccepted = true ∨
      selectedSaveType env.selectedNameFilter = WMIT_FT_WZM ∨
      selectedSaveType env.selectedNameFilter = WMIT_FT_OBJ) :
    guessModelTypeFromFilename
        (MainWindow.actionSaveAs env mw recentFiles).1.m_modelinfo.m_saveAsFile type0
      = (true, readTypeOfSaveType
          (MainWindow.actionSaveAs env mw recentFiles).1.m_modelinfo.m_save_type) ∧
    (endsInSuffix env.selectedFile (suffixOfSaveType (selectedSaveType env.selectedNameFilter)) →
      (MainWindow.actionSaveAs env mw recentFiles).1.m_modelinfo.m_saveAsFile
        = env.selectedFile) ∧
    (¬ endsInSuffix env.selectedFile
        (suffixOfSaveType (selectedSaveType env.selectedNameFilter)) →
      (MainWindow.actionSaveAs env mw recentFiles).1.m_modelinfo.m_saveAsFile
        = env.selectedFile ++ '.' ::
            (suffixOfSaveType (selectedSaveType env.selectedNameFilter)).toList) := by
  obtain ⟨h1, h2⟩ := MainWindow.actionSaveAs_stored env mw recentFiles hacc hfilter hexp
  obtain ⟨hd, hn, hl⟩ := suffixOfSaveType_plain (selectedSaveType env.selectedNameFilter)
  have hiff := suffix_toLower_iff_endsInSuffix env.selectedFile
    (suffixOfSaveType (selectedSaveType env.selectedNameFilter)) hd
    (suffixOfSaveType_no_slash _) hn
  rw [h1, h2]
  refine ⟨?_, ?_, ?_⟩
  · exact guess_of_extension _ type0 _ (fixSuffix_extension env.selectedFile _ hd hn hl)
  · intro h
    have h3 := hiff.mpr h
    simp only [fixSuffix, QFileInfo.filePath, h3, ne_eq, not_true_eq_false, if_false]
  · intro h
    have h3 : ¬ QString.toLower (QFileInfo.suffix env.selectedFile)
        = (suffixOfSaveType (selectedSaveType env.selectedNameFilter)).toList :=
      fun e => h (hiff.mp e)
    simp only [fixSuffix, QFileInfo.filePath, ne_eq, h3, not_false_eq_true, if_true]

/-- Witness of C22: "tank.PIE" saved with the PIE3 filter is stored unchanged and is
classified as PIE; "tank" saved with the PIE2 filter is stored as "tank.pie". -/
theorem C22_saveAs_name_guessed_as_saved_witness :
    (MainWindow.actionSaveAs (sampleSaveAsEnv "PIE3 models (*.pie)" "tank.PIE") sampleSaveWindow
      []).1.m_modelinfo.m_saveAsFile = "tank.PIE".toList ∧
    guessModelTypeFromFilename
        (MainWindow.actionSaveAs (sampleSaveAsEnv "PIE3 models (*.pie)" "tank.PIE")
          sampleSaveWindow []).1.m_modelinfo.m_saveAsFile WMIT_FT_OBJ
      = (true, readTypeOfSaveType
          (MainWindow.actionSaveAs (sampleSaveAsEnv "PIE3 models (*.pie)" "tank.PIE")
            sampleSaveWindow []).1.m_modelinfo.m_save_type) ∧
    (MainWindow.actionSaveAs (sampleSaveAsEnv "PIE2 models (*.pie)" "tank") sampleSaveWindow
      []).1.m_modelinfo.m_saveAsFile = "tank.pie".toList :=
  ⟨(C22_saveAs_name_guessed_as_saved (sampleSaveAsEnv "PIE3 models (*.pie)" "tank.PIE")
      sampleSaveWindow [] WMIT_FT_OBJ rfl (by decide) (Or.inl rfl)).2.1
      ⟨"tank".toList, "PIE".toList, by decide, by decide⟩,
    (C22_saveAs_name_guessed_as_saved (sampleSaveAsEnv "PIE3 models (*.pie)" "tank.PIE")
      sampleSaveWindow [] WMIT_FT_OBJ rfl (by decide) (Or.inl rfl)).1,
    (C22_saveAs_name_guessed_as_saved (sampleSaveAsEnv "PIE2 models (*.pie)" "tank")
      sampleSaveWindow [] WMIT_FT_OBJ rfl (by decide) (Or.inl rfl)).2.2
      (fun ⟨base, e, h, _⟩ =>
        absurd (show '.' ∈ "tank".toList from by
          have h2 : "tank".toList = base ++ '.' :: e := h
          rw [h2]
          exact List.mem_append_right base (List.mem_cons_self '.' e)) (by decide))⟩

/-! ## The directive reader against the lines of the stream -/

theorem matchKeyword_iff (kw text : List Char) :
    matchKeyword kw text = true ↔
      kw <+: text ∧ ∀ c ∈ text[kw.length]?, IStream.isSpace c = true := by
  induction kw generalizing text with
  | nil =>
    cases text with
    | nil => simp [matchKeyword]
    | cons c cs => simp [matchKeyword]
  | cons k ks ih =>
    cases text with
    | nil => simp [matchKeyword]
    | cons c cs =>
      simp only [matchKeyword, Bool.and_eq_true, beq_iff_eq, ih, List.cons_prefix_cons,
        List.length_cons, List.getElem?_cons_succ, and_assoc]

theorem matchKeyword_at (data kw text : List Char) (r : Nat) (hdrop : data.drop r = text) :
    matchKeyword kw text = true ↔
      kw <+: data.drop r ∧ ∀ c ∈ data[r + kw.length]?, IStream.isSpace c = true := by
  rw [matchKeyword_iff, ← hdrop, List.getElem?_drop]

theorem scanDirectiveLine_spec (data kw : List Char) (text : List Char) (p : Nat) (b : Bool)
    (hdrop : data.drop p = text) (hp : p ≤ data.length)
    (hb : b = true ↔ (p = 0 ∨ data[p - 1]? = some '\n')) :
    (∀ q, scanDirectiveLine kw text b p = some q →
      p ≤ q ∧ q ≤ data.length ∧
      ((q = 0 ∨ data[q - 1]? = some '\n') ∧ kw <+: data.drop q ∧
        ∀ c ∈ data[q + kw.length]?, IStream.isSpace c = true) ∧
      ∀ r, p ≤ r → r < q →
        ¬ ((r = 0 ∨ data[r - 1]? = some '\n') ∧ kw <+: data.drop r ∧
          ∀ c ∈ data[r + kw.length]?, IStream.isSpace c = true)) ∧
    (scanDirectiveLine kw text b p = none →
      ∀ r, p ≤ r → r ≤ data.length →
        ¬ ((r = 0 ∨ data[r - 1]? = some '\n') ∧ kw <+: data.drop r ∧
          ∀ c ∈ data[r + kw.length]?, IStream.isSpace c = true)) := by
  induction text generalizing p b with
  | nil =>
    have hlen : p = data.length := by
      have := List.drop_eq_nil_iff.mp hdrop
      omega
    have hm := matchKeyword_at data kw [] p hdrop
    by_cases hcond : (b && matchKeyword kw []) = true
    · have hs : scanDirectiveLine kw [] b p = some p := by
        rw [scanDirectiveLine, if_pos hcond]
      rw [hs]
      rw [Bool.and_eq_true] at hcond
      refine ⟨?_, fun h => by cases h⟩
      intro q hq
      cases hq
      exact ⟨le_refl _, hp, ⟨hb.mp hcond.1, hm.mp hcond.2⟩, fun r h1 h2 => by omega⟩
    · have hs : scanDirectiveLine kw [] b p = none := by
        rw [scanDirectiveLine, if_neg hcond]
      rw [hs]
      refine ⟨fun q h => (by cases h), ?_⟩
      intro _ r h1 h2 hQ
      have hr : r = p := by omega
      subst hr
      exact hcond (by rw [Bool.and_eq_true]; exact ⟨hb.mpr hQ.1, hm.mpr hQ.2⟩)
  | cons c cs ih =>
    have hlt : p < data.length := by
      by_contra hge
      have : data.drop p = [] := List.drop_eq_nil_iff.mpr (by omega)
      rw [this] at hdrop
      cases hdrop
    have hget : data[p]? = some c := by
      have h1 : (data.drop p)[0]? = some c := by rw [hdrop]; simp
      rw [List.getElem?_drop] at h1
      simpa using h1
    have hdrop1 : data.drop (p + 1) = cs := by
      have h1 : (data.drop p).drop 1 = cs := by rw [hdrop]; rfl
      rw [List.drop_drop] at h1
      exact h1
    have hb1 : ((c == '\n') = true) ↔ (p + 1 = 0 ∨ data[p + 1 - 1]? = some '\n') := by
      rw [Nat.add_sub_cancel, hget]
      simp
    have hm := matchKeyword_at data kw (c :: cs) p hdrop
    obtain ⟨ih1, ih2⟩ := ih (p + 1) (c == '\n') hdrop1 (by omega) hb1
    by_cases hcond : (b && matchKeyword kw (c :: cs)) = true
    · have hs : scanDirectiveLine kw (c :: cs) b p = some p := by
        rw [scanDirectiveLine, if_pos hcond]
      rw [hs]
      rw [Bool.and_eq_true] at hcond
      refine ⟨?_, fun h => by cases h⟩
      intro q hq
      cases hq
      exact ⟨le_refl _, hp, ⟨hb.mp hcond.1, hm.mp hcond.2⟩, fun r h1 h2 => by omega⟩
    · have hnQ : ¬ ((p = 0 ∨ data[p - 1]? = some '\n') ∧ kw <+: data.drop p ∧
          ∀ c ∈ data[p + kw.length]?, IStream.isSpace c = true) := by
        intro hQ
        exact hcond (by rw [Bool.and_eq_true]; exact ⟨hb.mpr hQ.1, hm.mpr hQ.2⟩)
      have hs : scanDirectiveLine kw (c :: cs) b p
          = scanDirectiveLine kw cs (c == '\n') (p + 1) := by
        rw [scanDirectiveLine, if_neg hcond]
      rw [hs]
      constructor
      · intro q hq
        obtain ⟨h1, h2, h3, h4⟩ := ih1 q hq
        refine ⟨by omega, h2, h3, ?_⟩
        intro r hr1 hr2
        by_cases hrp : r = p
        · rw [hrp]; exact hnQ
        · exact h4 r (by omega) hr2
      · intro hnone r hr1 hr2
        by_cases hrp : r = p
        · rw [hrp]; exact hnQ
        · exact ih2 hnone r (by omega) hr2

theorem findDirectiveLine_lineStart (in_ : IStream) :
    ((decide (in_.pos = 0) || in_.data[in_.pos - 1]? == some '\n') = true) ↔
      (in_.pos = 0 ∨ in_.data[in_.pos - 1]? = some '\n') := by
  simp

theorem findDirectiveLine_eq_some (in_ : IStream) (directive : String) (p : Nat)
    (hline : DirectiveLineAt in_ directive p)
    (hfirst : ∀ q, q < p → ¬ DirectiveLineAt in_ directive q) :
    findDirectiveLine in_ directive = some p := by
  obtain ⟨h1, h2, h3, h4, h5⟩ := hline
  obtain ⟨hs, hn⟩ := scanDirectiveLine_spec in_.data directive.toList in_.rest in_.pos _ rfl
    (by omega) (findDirectiveLine_lineStart in_)
  cases hf : findDirectiveLine in_ directive with
  | none => exact absurd ⟨h3, h4, h5⟩ (hn hf p h1 h2)
  | some q =>
    obtain ⟨hq1, hq2, hq3, hq4⟩ := hs q hf
    have hqp : q = p := by
      rcases Nat.lt_trichotomy q p with hlt | heq | hgt
      · exact absurd ⟨hq1, hq2, hq3⟩ (hfirst q hlt)
      · exact heq
      · exact absurd ⟨h3, h4, h5⟩ (hq4 p h1 hgt)
    rw [hqp]

theorem findDirectiveLine_eq_none (in_ : IStream) (directive : String)
    (hno : ∀ p, p ≤ in_.data.length → ¬ DirectiveLineAt in_ directive p) :
    findDirectiveLine in_ directive = none := by
  by_cases hp : in_.pos ≤ in_.data.length
  · obtain ⟨hs, -⟩ := scanDirectiveLine_spec in_.data directive.toList in_.rest in_.pos _ rfl
      hp (findDirectiveLine_lineStart in_)
    cases hf : findDirectiveLine in_ directive with
    | none => rfl
    | some q =>
      obtain ⟨hq1, hq2, hq3, -⟩ := hs q hf
      exact absurd ⟨hq1, hq2, hq3⟩ (hno q hq2)
  · have hrest : in_.rest = [] := List.drop_eq_nil_iff.mpr (by omega)
    have hget : in_.data[in_.pos - 1]? = none := List.getElem?_eq_none (by omega)
    have h0 : ¬ in_.pos = 0 := by omega
    simp [findDirectiveLine, hrest, hget, h0, scanDirectiveLine]

/-- C5: when a line beginning with the directive keyword is found, the handler is called
on the stream positioned right behind the keyword of the first such line and its result
is the result; when there is no such line and the directive is mandatory the result is
false; when there is no such line and the directive is optional the result is true and
the stream position is the one before the call. -/
theorem C5_tryToReadDirective_cases (in_ : IStream) (directive : String) (isOptional : Bool)
    (dirLoaderFunc : IStream → Bool × IStream) :
    (∀ p, DirectiveLineAt in_ directive p →
      (∀ q, q < p → ¬ DirectiveLineAt in_ directive q) →
      tryToReadDirective in_ directive isOptional dirLoaderFunc
          = dirLoaderFunc { in_ with pos := p + directive.toList.length } ∧
        in_.data.drop p
          = directive.toList ++ IStream.rest { in_ with pos := p + directive.toList.length }) ∧
    ((∀ p, p ≤ in_.data.length → ¬ DirectiveLineAt in_ directive p) → isOptional = false →
      (tryToReadDirective in_ directive isOptional dirLoaderFunc).1 = false) ∧
    ((∀ p, p ≤ in_.data.length → ¬ DirectiveLineAt in_ directive p) → isOptional = true →
      (tryToReadDirective in_ directive isOptional dirLoaderFunc).1 = true ∧
      (tryToReadDirective in_ directive isOptional dirLoaderFunc).2.pos = in_.pos) := by
  refine ⟨?_, ?_, ?_⟩
  · intro p hline hfirst
    constructor
    · simp only [tryToReadDirective, findDirectiveLine_eq_some in_ directive p hline hfirst]
    · obtain ⟨t, ht⟩ := hline.2.2.2.1
      simp only [IStream.rest, ← List.drop_drop, ← ht, List.drop_left]
  · intro hno ho
    simp only [tryToReadDirective, findDirectiveLine_eq_none in_ directive hno, ho]
    rfl
  · intro hno ho
    simp only [tryToReadDirective, findDirectiveLine_eq_none in_ directive hno, ho, if_true,
      and_self]

/-- Witness of C5 on the stream "TYPE 200 / LEVELS 1": the mandatory directive LEVELS is
found on the second line, at position 9, and the handler reads its count; the mandatory
directive LEVEL and the optional directive NORMALMAP begin no line. -/
theorem C5_tryToReadDirective_cases_witness :
    (tryToReadDirective (IStream.ofString "TYPE 200\nLEVELS 1\n") "LEVELS" false sampleHandler
        = sampleHandler ⟨"TYPE 200\nLEVELS 1\n".toList, 15, false⟩ ∧
      sampleHandler ⟨"TYPE 200\nLEVELS 1\n".toList, 15, false⟩
        = (true, ⟨"TYPE 200\nLEVELS 1\n".toList, 17, false⟩)) ∧
    (tryToReadDirective (IStream.ofString "TYPE 200\nLEVELS 1\n") "LEVEL" false
      sampleHandler).1 = false ∧
    ((tryToReadDirective (IStream.ofString "TYPE 200\nLEVELS 1\n") "NORMALMAP" true
        sampleHandler).1 = true ∧
      (tryToReadDirective (IStream.ofString "TYPE 200\nLEVELS 1\n") "NORMALMAP" true
        sampleHandler).2.pos = (IStream.ofString "TYPE 200\nLEVELS 1\n").pos) :=
  ⟨⟨((C5_tryToReadDirective_cases (IStream.ofString "TYPE 200\nLEVELS 1\n") "LEVELS" false
      sampleHandler).1 9 (by decide) (by decide)).1, by decide⟩,
    (C5_tryToReadDirective_cases (IStream.ofString "TYPE 200\nLEVELS 1\n") "LEVEL" false
      sampleHandler).2.1 (by decide) rfl,
    (C5_tryToReadDirective_cases (IStream.ofString "TYPE 200\nLEVELS 1\n") "NORMALMAP" true
      sampleHandler).2.2 (by decide) rfl⟩

end WMIT
